import Mathlib

/-!
Verification of the spliced-read-aligner core (`src/hisat/hi_aligner.h`,
`src/hisat/spliced_aligner.h`) against its natural-language specification.

The C++ source is shallowly embedded below.  Conventions used throughout:

* `index_t` (an unsigned template parameter) is modelled as `Nat`.  Subtraction
  on `Nat` is truncated; every theorem below carries the side conditions that
  make the source's own debug assertions (which guarantee no underflow on the
  paths concerned) hold, so truncation never diverges from the source there.
  The two helper functions `MaxIntronLen` / `MaxIntronLen_noncan` are *not*
  templated in the source (they are plain `uint32_t` functions), so they are
  embedded with explicit mod-2^32 arithmetic.
* C++ `float`/`double` values are only ever built from integers and compared
  (`probscore`, `intronLen_prob`); they are modelled as exact rationals `ℚ`.
* External collaborators (scoring scheme, reference, splice-site DB, FM index)
  are modelled as structures of abstract functions, one field per interface
  member used by the embedded code.
* Member functions that mutate `this` and return `bool` are modelled as
  functions returning `Option` of the new value: `none` embeds `return false`
  (the source performs no writes to `this` before any of its `return false`
  statements), `some h'` embeds `return true` with `this` mutated to `h'`.
-/

/-! ### Numeric constants (hi_aligner.h lines 45-53) -/

/-- Maximum insertion length (`maxInsLen = 3`). -/
def maxInsLen : Nat := 3

/-- Maximum deletion length (`maxDelLen = 3`). -/
def maxDelLen : Nat := 3

/-- Minimum anchor length required for canonical splice sites (`minAnchorLen = 7`). -/
def minAnchorLen : Nat := 7

/-- Minimum anchor length required for non-canonical splice sites (`minAnchorLen_noncan = 14`). -/
def minAnchorLen_noncan : Nat := 14

/-- `OFF_MASK` for a 32-bit `index_t`. -/
def offMask : Nat := 2 ^ 32 - 1

/-- `std::numeric_limits<int64_t>::min()` (`MIN_I64`). -/
def minI64 : Int := -(2 ^ 63)

/-- `std::numeric_limits<int64_t>::max()`. -/
def maxI64 : Int := 2 ^ 63 - 1

/-! ### Anchor-dependent intron bounds (hi_aligner.h lines 56-97)

`MaxIntronLen` and `MaxIntronLen_noncan` are plain `uint32_t` functions in the
source; the shift amount `(anchor << 1) - 4` (resp. `- 10`) is computed in
32-bit unsigned arithmetic, which wraps around for `anchor ≥ 2^31 + 2`. -/

/-- `MaxIntronLen(anchor)` (lines 56-65): permitted intron length for canonical
splice sites.  `shift = (anchor << 1) - 4` in `uint32_t`, then clamped to
`[13, 30]`; result `1 << shift`; `0` when `anchor < minAnchorLen`. -/
def MaxIntronLen (anchor : Nat) : Nat :=
  if anchor ≥ minAnchorLen then
    let shift := (anchor * 2 + (2 ^ 32 - 4)) % 2 ^ 32
    let shift := min (max shift 13) 30
    2 ^ shift
  else 0

/-- `MaxIntronLen_noncan(anchor)` (lines 78-87): permitted intron length for
non-canonical splice sites.  `shift = min((anchor << 1) - 10, 30)` in
`uint32_t`; result `1 << shift`; `0` when `anchor < minAnchorLen_noncan`. -/
def MaxIntronLen_noncan (anchor : Nat) : Nat :=
  if anchor ≥ minAnchorLen_noncan then
    let shift := (anchor * 2 + (2 ^ 32 - 10)) % 2 ^ 32
    let shift := min shift 30
    2 ^ shift
  else 0

/-- `intronLen_prob(anchor, intronLen, maxIntronLen)` (lines 67-75), floats
modelled as exact rationals. -/
def intronLen_prob (anchor intronLen maxIntronLen : Nat) : ℚ :=
  let expected : Nat := if anchor < 14 then 2 ^ ((anchor * 2 + 4) % 2 ^ 32) else maxIntronLen
  let expected : Nat := if expected > maxIntronLen then maxIntronLen else expected
  let result : ℚ := (intronLen : ℚ) / (expected : ℚ)
  if result > 1 then 1 else result

/-- `intronLen_prob_noncan(anchor, intronLen, maxIntronLen)` (lines 89-97). -/
def intronLen_prob_noncan (anchor intronLen maxIntronLen : Nat) : ℚ :=
  let expected : Nat := if anchor < 16 then 2 ^ ((anchor * 2) % 2 ^ 32) else maxIntronLen
  let expected : Nat := if expected > maxIntronLen then maxIntronLen else expected
  let result : ℚ := (intronLen : ℚ) / (expected : ℚ)
  if result > 1 then 1 else result

/-! ### Claim C3: the anchor-dependent intron bound formulas -/

/-- The canonical-splice intron bound exactly as the spec words it
(`1 << clamp(2·a − 4, 13, 30)` when `a ≥ 7`, else `0`), with mathematical
(unbounded) arithmetic.  Used only to compare against `MaxIntronLen`. -/
def MaxIntronLenSpec (anchor : Nat) : Nat :=
  if anchor ≥ 7 then 2 ^ min (max (2 * anchor - 4) 13) 30 else 0

/-- The non-canonical-splice intron bound exactly as the spec words it
(`1 << min(2·a − 10, 30)` when `a ≥ 14`, else `0`). -/
def MaxIntronLenNoncanSpec (anchor : Nat) : Nat :=
  if anchor ≥ 14 then 2 ^ min (2 * anchor - 10) 30 else 0

/-- C3 counterexample: the claim's formula `1 << clamp(2·a − 4, 13, 30)` fails
for `a = 2^31 + 2`, because the source computes the shift `(anchor << 1) - 4`
in 32-bit unsigned arithmetic, which wraps to `0` there (clamped to `13`),
while the spec's unbounded formula clamps `2^32` down to `30`. -/
theorem maxIntronLen_wraparound_counterexample :
    MaxIntronLen 2147483650 = 8192 ∧ MaxIntronLenSpec 2147483650 = 1073741824 ∧
      MaxIntronLen 2147483650 ≠ MaxIntronLenSpec 2147483650 := by
  refine ⟨by decide, by decide, by decide⟩

/-- C3 amended: the spec's formulas for `MaxIntronLen` and
`MaxIntronLen_noncan` are exact whenever the 32-bit shift computation does not
wrap, i.e. on `2·a − 4 < 2^32` (resp. `2·a − 10 < 2^32`); below the anchor
minima both bounds are `0`. -/
theorem maxIntronLen_formula_amended :
    (∀ a, 7 ≤ a → 2 * a - 4 < 2 ^ 32 → MaxIntronLen a = MaxIntronLenSpec a) ∧
    (∀ a, a < 7 → MaxIntronLen a = 0) ∧
    (∀ a, 14 ≤ a → 2 * a - 10 < 2 ^ 32 → MaxIntronLen_noncan a = MaxIntronLenNoncanSpec a) ∧
    (∀ a, a < 14 → MaxIntronLen_noncan a = 0) := by
  refine ⟨?_, ?_, ?_, ?_⟩
  · intro a h7 hlt
    have hmod : (a * 2 + (2 ^ 32 - 4)) % 2 ^ 32 = 2 * a - 4 := by
      have h1 : a * 2 + (2 ^ 32 - 4) = (2 * a - 4) + 1 * 2 ^ 32 := by omega
      rw [h1, Nat.add_mul_mod_self_right, Nat.mod_eq_of_lt hlt]
    simp only [MaxIntronLen, MaxIntronLenSpec, minAnchorLen, ge_iff_le, h7, if_pos, hmod]
  · intro a h
    simp only [MaxIntronLen, minAnchorLen, ge_iff_le]
    rw [if_neg (by omega)]
  · intro a h14 hlt
    have hmod : (a * 2 + (2 ^ 32 - 10)) % 2 ^ 32 = 2 * a - 10 := by
      have h1 : a * 2 + (2 ^ 32 - 10) = (2 * a - 10) + 1 * 2 ^ 32 := by omega
      rw [h1, Nat.add_mul_mod_self_right, Nat.mod_eq_of_lt hlt]
    simp only [MaxIntronLen_noncan, MaxIntronLenNoncanSpec, minAnchorLen_noncan, ge_iff_le, h14,
      if_pos, hmod]
  · intro a h
    simp only [MaxIntronLen_noncan, minAnchorLen_noncan, ge_iff_le]
    rw [if_neg (by omega)]

/-- Witness for the amended C3 formula at concrete anchors 20, 3, 5. -/
theorem maxIntronLen_formula_witness :
    MaxIntronLen 20 = MaxIntronLenSpec 20 ∧ MaxIntronLen 3 = 0 ∧
      MaxIntronLen_noncan 20 = MaxIntronLenNoncanSpec 20 ∧ MaxIntronLen_noncan 5 = 0 :=
  ⟨maxIntronLen_formula_amended.1 20 (by decide) (by decide),
   maxIntronLen_formula_amended.2.1 3 (by decide),
   maxIntronLen_formula_amended.2.2.1 20 (by decide) (by decide),
   maxIntronLen_formula_amended.2.2.2 5 (by decide)⟩

/-! ### The Edit data model (edit.h, as used by hi_aligner.h)

`edit.h` is outside the given sources; the `Edit` record below models exactly
the fields hi_aligner.h reads and writes (`type`, `pos`, `chr`, `qchr`,
`splLen`, `splDir`, `knownSpl`, `donor_seq`, `acceptor_seq`).  The source
stores `chr`/`qchr` as ASCII characters (`"ACGTN"[base]`) and converts back
with the `dna2col`/`asc2dnamask` tables; here both are stored directly as base
codes `0..4` (`A,C,G,T,N`), and the table lookups are embedded accordingly. -/

inductive EditKind
  | mm
  | readGap
  | refGap
  | spl
deriving DecidableEq, Repr

inductive SpliceDir
  | fwd      -- EDIT_SPL_FW
  | rev      -- EDIT_SPL_RC
  | unknown  -- EDIT_SPL_UNKNOWN
deriving DecidableEq, Repr

structure Edit where
  pos : Nat
  kind : EditKind
  chr : Nat := 0          -- reference-side base code (source: ASCII char)
  qchr : Nat := 0         -- read-side base code (source: ASCII char)
  splLen : Nat := 0
  splDir : SpliceDir := .unknown
  knownSpl : Bool := false
  donorSeq : Int := 0     -- Edit::donor_seq
  acceptorSeq : Int := 0  -- Edit::acceptor_seq
deriving DecidableEq, Repr

instance : Inhabited Edit := ⟨{ pos := 0, kind := EditKind.mm }⟩

/-- An edit that terminates a left/right partial: splice, read gap or ref gap. -/
def Edit.isGapType (e : Edit) : Bool :=
  e.kind = EditKind.spl ∨ e.kind = EditKind.readGap ∨ e.kind = EditKind.refGap

/-- `asc2dnamask["ACGTN"[c]]`: bit mask of a base code (`N ↦ 15`). -/
def asc2dnamaskCode (c : Nat) : Nat :=
  if c ≤ 3 then 2 ^ c else 15

/-! ### GenomeHit (hi_aligner.h lines 406-909)

Fields follow the source (`_fw, _rdoff, _len, _trim5, _trim3, _tidx, _toff,
_edits, _score, _splicescore, _hitcount`); the arena bookkeeping
(`_edits_node`, `_sharedVars`) is memory management with no observable effect
on the values and is dropped. -/

structure GenomeHit where
  fw : Bool
  rdoff : Nat
  len : Nat
  trim5 : Nat := 0
  trim3 : Nat := 0
  tidx : Nat
  toff : Nat
  edits : List Edit := []
  score : Int := 0
  splicescore : ℚ := 0
  hitcount : Nat := 1
deriving DecidableEq, Repr

/-- `GenomeHit::getRightOff` (lines 697-712): genomic offset of the right end. -/
def getRightOff (h : GenomeHit) : Nat :=
  h.edits.foldl
    (fun toff e =>
      match e.kind with
      | EditKind.spl => toff + e.splLen
      | EditKind.readGap => toff + 1
      | EditKind.refGap => toff - 1
      | EditKind.mm => toff)
    (h.toff + h.len)

/-- Helper for `getLeft`: the length of the partial alignment from the left
until the first indel or splice edit (lines 623-630). -/
def getLeftLen (len : Nat) : List Edit → Nat
  | [] => len
  | e :: rest => if e.isGapType then e.pos else getLeftLen len rest

/-- `GenomeHit::getLeft` (lines 607-642), values only (`score == NULL`):
returns `(rdoff, len, toff)` of the left partial. -/
def getLeftVals (h : GenomeHit) : Nat × Nat × Nat :=
  (h.rdoff, getLeftLen h.len h.edits, h.toff)

/-- `GenomeHit::getRight` (lines 647-692), values only (`score == NULL`):
returns `(rdoff, len, toff)` of the right partial, scanning the edits from the
right for the first indel or splice edit. -/
def getRightVals (h : GenomeHit) : Nat × Nat × Nat :=
  match h.edits.reverse.find? (fun e => e.isGapType) with
  | none => (h.rdoff, h.len, h.toff)
  | some e =>
    let rdoff := h.rdoff + e.pos
    let len := h.len - e.pos
    let rdoff := if e.kind = EditKind.refGap then rdoff + 1 else rdoff
    let len := if e.kind = EditKind.refGap then len - 1 else len
    (rdoff, len, getRightOff h - len)

/-- `GenomeHit::compatibleWith` (lines 914-963).  `sameObj` embeds the pointer
identity test `this == &otherHit`. -/
def compatibleWith (h o : GenomeHit) (sameObj : Bool) (minIntronLen maxIntronLen : Nat)
    (noSplicedAlignment : Bool := false) : Bool :=
  if sameObj then false
  else if h.fw ≠ o.fw ∨ h.tidx ≠ o.tidx then false
  else if h.rdoff > o.rdoff then false
  else if h.rdoff + h.len > o.rdoff + o.len then false
  else if h.toff > o.toff then false
  else
    let tr := getRightVals h
    let ol := getLeftVals o
    if tr.1 > ol.1 then false
    else if tr.1 + tr.2.1 > ol.1 + ol.2.1 then false
    else if tr.2.2 > ol.2.2 then false
    else
      let refdif := ol.2.2 - tr.2.2
      let rddif := ol.1 - tr.1
      if rddif ≠ refdif then
        if rddif > refdif then
          if rddif > refdif + maxInsLen then false else true
        else
          if refdif - rddif < minIntronLen then
            if refdif - rddif > maxDelLen then false else true
          else if noSplicedAlignment then false
          else if refdif - rddif > maxIntronLen then false else true
      else true

/-! ### Claim C2: characterization of `compatibleWith` -/

/-- The compatibility condition exactly as claim C2 words it: distinct objects,
same strand and reference, A at or before B on read and reference (also for
A's right partial versus B's left partial), and the gap condition on
`rddif = B.rdoff − A.rdoff`, `refdif = B.toff − A.toff` (i.e. computed on the
*full* hits, as the claim states).  Used only to compare with the source's
`compatibleWith`. -/
def compatibleSpecC2 (h o : GenomeHit) (sameObj : Bool) (minIntronLen maxIntronLen : Nat) : Prop :=
  sameObj = false ∧ h.fw = o.fw ∧ h.tidx = o.tidx ∧
  h.rdoff ≤ o.rdoff ∧ h.toff ≤ o.toff ∧
  (getRightVals h).1 ≤ (getLeftVals o).1 ∧ (getRightVals h).2.2 ≤ (getLeftVals o).2.2 ∧
  (let rddif := o.rdoff - h.rdoff
   let refdif := o.toff - h.toff
   rddif = refdif ∨
   (rddif > refdif ∧ rddif - refdif ≤ 3) ∨
   (refdif > rddif ∧ (refdif - rddif ≤ 3 ∨ (minIntronLen ≤ refdif - rddif ∧ refdif - rddif ≤ maxIntronLen))))

/-- C2 counterexample: the claim's condition list is not sufficient.  Hit A
= `[0,10)` and hit B = `[2,5)` on the read (same diagonal, `rddif = refdif =
2`) satisfy every condition the claim lists, but the source additionally
rejects pairs whose read window contains the other's
(`_rdoff + _len > other._rdoff + other._len`, line 927), so `compatibleWith`
returns `false`. -/
theorem compatibleWith_containment_counterexample :
    compatibleSpecC2
      { fw := true, rdoff := 0, len := 10, tidx := 0, toff := 0 }
      { fw := true, rdoff := 2, len := 3, tidx := 0, toff := 2 } false 20 1000 ∧
    compatibleWith
      { fw := true, rdoff := 0, len := 10, tidx := 0, toff := 0 }
      { fw := true, rdoff := 2, len := 3, tidx := 0, toff := 2 } false 20 1000 false = false := by
  constructor
  · refine ⟨rfl, rfl, rfl, by decide, by decide, by decide, by decide, ?_⟩
    left; decide
  · decide


/-- Helper: an `if c then b1 else b2` of booleans is `true` iff the chosen
branch is. -/
theorem ite_bool_eq_true (c : Prop) [Decidable c] (b1 b2 : Bool) :
    (if c then b1 else b2) = true ↔ (c ∧ b1 = true) ∨ (¬c ∧ b2 = true) := by
  split_ifs with hc <;> simp [hc]


set_option maxHeartbeats 1000000 in
/-- C2 amended: exact characterization of `compatibleWith`.  Compared to the
claim, (a) A's read window must also end at or before B's (both for the full
windows and for A's right partial versus B's left partial), and (b) the gaps
`rddif`/`refdif` are measured between A's right partial and B's left partial
(`getRight`/`getLeft`), not between the full hits; the rest is as claimed,
reading `maxInsLen = maxDelLen = 3`. -/
theorem compatibleWith_characterization (h o : GenomeHit) (so : Bool)
    (minIntronLen maxIntronLen : Nat) (ns : Bool) :
    compatibleWith h o so minIntronLen maxIntronLen ns = true ↔
      (so = false ∧ h.fw = o.fw ∧ h.tidx = o.tidx ∧
       h.rdoff ≤ o.rdoff ∧ h.rdoff + h.len ≤ o.rdoff + o.len ∧ h.toff ≤ o.toff ∧
       (getRightVals h).1 ≤ (getLeftVals o).1 ∧
       (getRightVals h).1 + (getRightVals h).2.1 ≤ (getLeftVals o).1 + (getLeftVals o).2.1 ∧
       (getRightVals h).2.2 ≤ (getLeftVals o).2.2 ∧
       (let rddif := (getLeftVals o).1 - (getRightVals h).1
        let refdif := (getLeftVals o).2.2 - (getRightVals h).2.2
        rddif = refdif ∨
        (rddif > refdif ∧ rddif ≤ refdif + maxInsLen) ∨
        (refdif > rddif ∧ refdif - rddif < minIntronLen ∧ refdif - rddif ≤ maxDelLen) ∨
        (refdif > rddif ∧ minIntronLen ≤ refdif - rddif ∧ ns = false ∧
         refdif - rddif ≤ maxIntronLen))) := by
  simp only [compatibleWith, maxInsLen, maxDelLen]
  generalize getRightVals h = tr
  generalize getLeftVals o = ol
  obtain ⟨trd, tlen, ttoff⟩ := tr
  obtain ⟨ord, olen, otoff⟩ := ol
  by_cases hso : so
  · simp [hso]
  · simp only [Bool.not_eq_true] at hso
    by_cases hfw : h.fw = o.fw
    · by_cases hti : h.tidx = o.tidx
      · by_cases hns : ns
        · simp only [hso, hfw, hti, hns, ne_eq, not_true_eq_false, not_false_eq_true, or_self,
            Bool.false_eq_true, Bool.true_eq_false, if_false, if_true, true_and, false_and,
            and_false, or_false, false_or, ite_bool_eq_true, not_lt, not_le, not_not, and_true,
            eq_self_iff_true]
          omega
        · simp only [Bool.not_eq_true] at hns
          simp only [hso, hfw, hti, hns, ne_eq, not_true_eq_false, not_false_eq_true, or_self,
            Bool.false_eq_true, Bool.true_eq_false, if_false, if_true, true_and, and_true,
            false_and, and_false, false_or, or_false, ite_bool_eq_true, not_lt, not_le, not_not,
            eq_self_iff_true]
          omega
      · simp [hso, hfw, hti, ite_bool_eq_true]
    · simp [hso, hfw, ite_bool_eq_true]

/-- Witness for the C2 characterization: two abutting exact hits are
compatible. -/
theorem compatibleWith_characterization_witness :
    compatibleWith
      { fw := true, rdoff := 0, len := 10, tidx := 0, toff := 0 }
      { fw := true, rdoff := 10, len := 10, tidx := 0, toff := 10 } false 20 1000 false = true :=
  (compatibleWith_characterization _ _ _ _ _ _).mpr (by decide)

/-! ### External collaborators: Read and Scoring (read.h / scoring.h interfaces) -/

/-- The read, as consumed by the aligner: forward/revcomp base sequences (codes
`0..4`), qualities, and length. -/
structure Read where
  patFw : Nat → Nat
  patRc : Nat → Nat
  qual : Nat → Nat
  qualRev : Nat → Nat
  len : Nat

/-- The scoring scheme interface used by the embedded code.  `canSpl`
/`noncanSpl` model the no-argument calls in `combineWith`; `canSplLen`
/`noncanSplLen` model the length-taking calls `sc.canSpl((int)splLen)` in
`calculateScore` (the source's member has an optional length parameter). -/
structure Scoring where
  score : Nat → Nat → Nat → Int   -- sc.score(readChar, refMask, qualIdx)
  mmpMax : Int
  canSpl : Int
  noncanSpl : Int
  canSplLen : Nat → Int
  noncanSplLen : Nat → Int
  readGapOpen : Int
  readGapExtend : Int
  refGapOpen : Int
  refGapExtend : Int
  conflictSpl : Int
  matchBonus : Int                 -- sc.match()
  maxReadGaps : Int → Nat → Int
  maxRefGaps : Int → Nat → Int

/-- An edit that is a mismatch or an indel (the predicate of the anchor-edit
scans in `calculateScore`, lines 2118-2122 / 2148-2160). -/
def Edit.isMmOrGap (e : Edit) : Bool :=
  e.kind = EditKind.mm ∨ e.kind = EditKind.readGap ∨ e.kind = EditKind.refGap

/-! ### calculateScore (hi_aligner.h lines 2077-2229) -/

/-- The probability-score threshold ladder for canonical splices
(lines 2138-2143): `0.8`, raised stepwise with the intron length. -/
def probscoreThresh (splLen : Nat) : ℚ :=
  if splLen >>> 16 ≠ 0 then (0.99 : ℚ)
  else if splLen >>> 15 ≠ 0 then (0.97 : ℚ)
  else if splLen >>> 14 ≠ 0 then (0.94 : ℚ)
  else if splLen >>> 13 ≠ 0 then (0.91 : ℚ)
  else if splLen >>> 12 ≠ 0 then (0.88 : ℚ)
  else (0.8 : ℚ)

/-- Running state of the edit walk in `calculateScore`. -/
structure CalcState where
  score : Int := 0
  splicescore : ℚ := 0
  numsplices : Nat := 0
  mm : Nat := 0
  toffBase : Nat
  conflict : Bool := false
  whichsense : SpliceDir := SpliceDir.unknown
deriving DecidableEq, Repr

/-- The conflicting-splice-direction bookkeeping shared by known and novel
splices (lines 2178-2187), followed by `toff_base += splLen` (line 2189). -/
def calcSpliceSense (e : Edit) (st : CalcState) : CalcState :=
  let st :=
    if ¬ st.conflict then
      if st.whichsense = SpliceDir.unknown then { st with whichsense := e.splDir }
      else if e.splDir ≠ SpliceDir.unknown ∧ st.whichsense ≠ e.splDir then
        { st with conflict := true }
      else st
    else st
  { st with toffBase := st.toffBase + e.splLen }

/-- `left_anchor_len` at a novel splice edit (lines 2113, 2124): the aligned
read bases left of the splice, minus twice the mismatches seen so far. -/
def calcLeftAnchor (h : GenomeHit) (e : Edit) (mm : Nat) : Int :=
  (h.rdoff : Int) + (e.pos : Int) - 2 * (mm : Int)

/-- `right_anchor_len` (lines 2116-2125): read bases right of the splice minus
twice the mismatch/indel edits after it (`rest` is the edit suffix). -/
def calcRightAnchor (h : GenomeHit) (rdlen : Nat) (e : Edit) (rest : List Edit) : Int :=
  (rdlen : Int) - ((h.rdoff : Int) + (e.pos : Int)) -
    2 * ((rest.filter (fun e2 => e2.isMmOrGap)).length : Int)

/-- `shorter_anchor_len` (lines 2126-2127), clamped below to 1. -/
def calcShorterAnchor (h : GenomeHit) (rdlen : Nat) (e : Edit) (rest : List Edit) (mm : Nat) :
    Int :=
  let shorter := min (calcLeftAnchor h e mm) (calcRightAnchor h rdlen e rest)
  if shorter ≤ 0 then 1 else shorter

/-- `intronLen_thresh` (line 2129): the anchor-dependent intron bound, picked
by splice direction. -/
def calcIntronLenThresh (h : GenomeHit) (rdlen : Nat) (e : Edit) (rest : List Edit) (mm : Nat) :
    Nat :=
  if e.splDir ≠ SpliceDir.unknown then
    MaxIntronLen (calcShorterAnchor h rdlen e rest mm).toNat
  else MaxIntronLen_noncan (calcShorterAnchor h rdlen e rest mm).toNat

/-- The sentinel conditions for a novel splice edit (lines 2130-2163): active
only when the anchor-dependent bound is below `maxIntronLen`; then the bound
check, the probability-score gate for direction-classified splices, and the
no-edits/no-trim requirement on the shorter-anchor side.  `true` means
`calculateScore` returns `-1000`. -/
def calcSpliceGate (h : GenomeHit) (prob : Int → Int → ℚ) (maxIntronLen rdlen : Nat)
    (e : Edit) (rest prevs : List Edit) (mm : Nat) : Bool :=
  if calcIntronLenThresh h rdlen e rest mm < maxIntronLen then
    if e.splLen > calcIntronLenThresh h rdlen e rest mm then true
    else if e.splDir ≠ SpliceDir.unknown ∧
            prob e.donorSeq e.acceptorSeq < probscoreThresh e.splLen then true
    else if calcShorterAnchor h rdlen e rest mm = calcLeftAnchor h e mm then
      h.trim5 > 0 ∨ prevs.any (fun e2 => e2.isMmOrGap)
    else
      h.trim3 > 0 ∨ rest.any (fun e2 => e2.isMmOrGap)
  else false

/-- One iteration of the edit loop of `calculateScore` (lines 2097-2216).
`rest` is the suffix after the current edit (for the right-anchor edit count),
`prevs` the already-processed edits in reverse (head = previous edit).
`none` embeds the sentinel `return -1000`. -/
def calcStep (h : GenomeHit) (qual : Nat → Nat) (prob : Int → Int → ℚ) (sc : Scoring)
    (maxIntronLen rdlen : Nat) (e : Edit) (rest prevs : List Edit) (st : CalcState) :
    Option CalcState :=
  match e.kind with
  | EditKind.mm =>
    let pen := sc.score e.qchr (asc2dnamaskCode e.chr) (qual (h.rdoff + e.pos) - 33)
    some { st with score := st.score + pen, mm := st.mm + 1 }
  | EditKind.spl =>
    if e.knownSpl then some (calcSpliceSense e st)
    else
      if calcSpliceGate h prob maxIntronLen rdlen e rest prevs st.mm then none
      else
        let shorter := calcShorterAnchor h rdlen e rest st.mm
        let st :=
          { st with
            score := st.score -
              (if e.splDir ≠ SpliceDir.unknown then sc.canSplLen e.splLen
               else sc.noncanSplLen e.splLen),
            numsplices := if shorter ≤ 15 then st.numsplices + 1 else st.numsplices,
            splicescore := if shorter ≤ 15 then st.splicescore + (e.splLen : ℚ)
                           else st.splicescore }
        some (calcSpliceSense e st)
  | EditKind.readGap =>
    let isOpen : Bool :=
      match prevs with
      | e2 :: _ => ¬(e2.kind = EditKind.readGap ∧ e2.pos = e.pos)
      | [] => true
    some { st with
           score := st.score - (if isOpen then sc.readGapOpen else sc.readGapExtend),
           toffBase := st.toffBase + 1 }
  | EditKind.refGap =>
    let isOpen : Bool :=
      match prevs with
      | e2 :: _ => ¬(e2.kind = EditKind.refGap ∧ e2.pos + 1 = e.pos)
      | [] => true
    some { st with
           score := st.score - (if isOpen then sc.refGapOpen else sc.refGapExtend),
           toffBase := st.toffBase - 1 }

/-- The edit loop of `calculateScore`. -/
def calcGo (h : GenomeHit) (qual : Nat → Nat) (prob : Int → Int → ℚ) (sc : Scoring)
    (maxIntronLen rdlen : Nat) :
    List Edit → List Edit → CalcState → Option CalcState
  | [], _, st => some st
  | e :: rest, prevs, st =>
    match calcStep h qual prob sc maxIntronLen rdlen e rest prevs st with
    | none => none
    | some st' => calcGo h qual prob sc maxIntronLen rdlen rest (e :: prevs) st'

/-- `GenomeHit::calculateScore` (lines 2077-2229).  `prob` models
`ssdb.probscore`; the unused parameters `minK_local`, `minIntronLen` and `ref`
of the source signature are dropped (the body never reads them).  Returns the
hit with `_score` (and, on normal completion, `_splicescore`) updated; the
sentinel path `return -1000.0` updates `_score` only (the assignment happens
at the call sites `_score = calculateScore(...)`). -/
def calculateScore (h : GenomeHit) (rd : Read) (prob : Int → Int → ℚ) (sc : Scoring)
    (maxIntronLen : Nat) : GenomeHit :=
  match calcGo h (if h.fw then rd.qual else rd.qualRev) prob sc maxIntronLen rd.len h.edits []
      { toffBase := h.toff } with
  | none => { h with score := -1000 }
  | some st =>
    let score := if st.conflict then st.score - sc.conflictSpl else st.score
    let splicescore :=
      if st.numsplices > 1 then st.splicescore / (st.numsplices : ℚ) else st.splicescore
    let score := score + ((h.len - st.mm : Nat) : Int) * sc.matchBonus
    { h with score := score, splicescore := splicescore }


/-! ### Claim C4: the −1000 sentinel conditions of `calculateScore` -/

@[simp] theorem calcSpliceSense_mm (e : Edit) (st : CalcState) :
    (calcSpliceSense e st).mm = st.mm := by
  unfold calcSpliceSense
  split_ifs <;> rfl

@[simp] theorem calcSpliceSense_score (e : Edit) (st : CalcState) :
    (calcSpliceSense e st).score = st.score := by
  unfold calcSpliceSense
  split_ifs <;> rfl

@[simp] theorem calcSpliceSense_numsplices (e : Edit) (st : CalcState) :
    (calcSpliceSense e st).numsplices = st.numsplices := by
  unfold calcSpliceSense
  split_ifs <;> rfl

@[simp] theorem calcSpliceSense_splicescore (e : Edit) (st : CalcState) :
    (calcSpliceSense e st).splicescore = st.splicescore := by
  unfold calcSpliceSense
  split_ifs <;> rfl

/-- `calcStep` increments the mismatch counter exactly on mismatch edits. -/
theorem calcStep_mm_effect (h : GenomeHit) (qual : Nat → Nat) (prob : Int → Int → ℚ)
    (sc : Scoring) (maxIntronLen rdlen : Nat) (e : Edit) (rest prevs : List Edit)
    (st st' : CalcState)
    (hstep : calcStep h qual prob sc maxIntronLen rdlen e rest prevs st = some st') :
    st'.mm = if e.kind = EditKind.mm then st.mm + 1 else st.mm := by
  cases he : e.kind <;> simp only [calcStep, he] at hstep
  case mm =>
    simp only [Option.some.injEq] at hstep
    subst hstep
    simp [he]
  case spl =>
    by_cases hk : e.knownSpl = true
    · rw [if_pos hk] at hstep
      simp only [Option.some.injEq] at hstep
      subst hstep
      simp [he]
    · rw [if_neg hk] at hstep
      cases hg : calcSpliceGate h prob maxIntronLen rdlen e rest prevs st.mm with
      | true => rw [if_pos hg] at hstep; exact absurd hstep (by simp)
      | false =>
        rw [if_neg (by simp [hg])] at hstep
        simp only [Option.some.injEq] at hstep
        subst hstep
        simp [he]
  case readGap =>
    simp only [Option.some.injEq] at hstep
    subst hstep
    simp [he]
  case refGap =>
    simp only [Option.some.injEq] at hstep
    subst hstep
    simp [he]

/-- If the step at edit `e` (with suffix `post`) fails for every state whose
mismatch counter accounts for the mismatches of the prefix still to be walked,
the whole walk fails. -/
theorem calcGo_reach_sentinel (h : GenomeHit) (qual : Nat → Nat) (prob : Int → Int → ℚ)
    (sc : Scoring) (maxIntronLen rdlen : Nat) (e : Edit) (post : List Edit) :
    ∀ (pre prevs : List Edit) (st : CalcState),
      (∀ (st2 : CalcState) (prevs2 : List Edit),
          st2.mm = st.mm + (pre.filter (fun e2 => e2.kind = EditKind.mm)).length →
          calcStep h qual prob sc maxIntronLen rdlen e post prevs2 st2 = none) →
      calcGo h qual prob sc maxIntronLen rdlen (pre ++ e :: post) prevs st = none := by
  intro pre
  induction pre with
  | nil =>
    intro prevs st hfail
    simp only [List.nil_append, calcGo]
    rw [hfail st prevs (by simp)]
  | cons x pre ih =>
    intro prevs st hfail
    simp only [List.cons_append, calcGo]
    cases hstep : calcStep h qual prob sc maxIntronLen rdlen x (pre ++ e :: post) prevs st with
    | none => rfl
    | some st2 =>
      have hmm := calcStep_mm_effect h qual prob sc maxIntronLen rdlen x (pre ++ e :: post)
        prevs st st2 hstep
      refine ih (x :: prevs) st2 ?_
      intro st3 prevs2 hmm3
      refine hfail st3 prevs2 ?_
      by_cases hx : x.kind = EditKind.mm <;> simp [hx, List.filter] at hmm hmm3 ⊢ <;> omega

/-- Concrete read fixture (all-`A` bases, quality 30). -/
def rdTest (n : Nat) : Read :=
  { patFw := fun _ => 0, patRc := fun _ => 0, qual := fun _ => 63, qualRev := fun _ => 63,
    len := n }

/-- Concrete scoring fixture. -/
def scTest : Scoring :=
  { score := fun _ _ _ => -6, mmpMax := 6, canSpl := 3, noncanSpl := 10,
    canSplLen := fun _ => 10, noncanSplLen := fun _ => 14,
    readGapOpen := 5, readGapExtend := 3, refGapOpen := 5, refGapExtend := 3,
    conflictSpl := 2, matchBonus := 2, maxReadGaps := fun _ _ => 0, maxRefGaps := fun _ _ => 0 }

/-- A splice-site probability model that scores everything 0. -/
def probZero : Int → Int → ℚ := fun _ _ => 0

/-- C4 counterexample: a direction-classified (canonical, forward) novel
splice whose probability score (0) is far below the 0.80 threshold does *not*
return the −1000 sentinel when both anchors are long (30): then
`MaxIntronLen(30) = 2^30 ≥ maxIntronLen = 1000`, so the whole gate block
(lines 2130-2163) is skipped and the score is the ordinary
`-canSpl + 60·match = 110`. -/
theorem calculateScore_probgate_skip_counterexample :
    (calculateScore
        { fw := true, rdoff := 0, len := 60, tidx := 0, toff := 100,
          edits := [{ pos := 30, kind := EditKind.spl, splLen := 50,
                      splDir := SpliceDir.fwd }] }
        (rdTest 60) probZero scTest 1000).score = 110 ∧
      probZero 0 0 < probscoreThresh 50 ∧
      SpliceDir.fwd ≠ SpliceDir.unknown ∧ (110 : Int) ≠ -1000 := by
  refine ⟨by decide, by norm_num [probZero, probscoreThresh, Nat.shiftRight_eq_div_pow], by decide, by decide⟩

/-- C4 amended: `calculateScore` returns the −1000 sentinel whenever a novel
splice edit's gates are *active* — i.e. the anchor-dependent bound
`calcIntronLenThresh` is strictly below `maxIntronLen` — and either the skip
length exceeds that bound, or the splice is direction-classified and its
probability score is below the length-dependent threshold (0.80, rising to
0.99 for introns ≥ 65536). -/
theorem calculateScore_sentinel_amended (h : GenomeHit) (rd : Read) (prob : Int → Int → ℚ)
    (sc : Scoring) (maxIntronLen : Nat) (pre post : List Edit) (e : Edit)
    (hedits : h.edits = pre ++ e :: post)
    (hkind : e.kind = EditKind.spl) (hknown : e.knownSpl = false)
    (hthresh : calcIntronLenThresh h rd.len e post
        (pre.filter (fun e2 => e2.kind = EditKind.mm)).length < maxIntronLen)
    (hgate : e.splLen > calcIntronLenThresh h rd.len e post
          (pre.filter (fun e2 => e2.kind = EditKind.mm)).length ∨
        (e.splDir ≠ SpliceDir.unknown ∧
          prob e.donorSeq e.acceptorSeq < probscoreThresh e.splLen)) :
    (calculateScore h rd prob sc maxIntronLen).score = -1000 := by
  have hnone : calcGo h (if h.fw then rd.qual else rd.qualRev) prob sc maxIntronLen rd.len
      h.edits [] { toffBase := h.toff } = none := by
    rw [hedits]
    apply calcGo_reach_sentinel
    intro st2 prevs2 hmm2
    have hmm2' : st2.mm = (pre.filter (fun e2 => e2.kind = EditKind.mm)).length := by
      simpa using hmm2
    simp only [calcStep, hkind]
    rw [if_neg (by simp [hknown])]
    rw [if_pos ?_]
    unfold calcSpliceGate
    rw [hmm2', if_pos hthresh]
    by_cases hlen : e.splLen > calcIntronLenThresh h rd.len e post
        (pre.filter (fun e2 => e2.kind = EditKind.mm)).length
    · rw [if_pos hlen]
    · rw [if_neg hlen]
      rcases hgate with hgate | hgate
      · exact absurd hgate hlen
      · rw [if_pos hgate]
  simp only [calculateScore, hnone]

/-- Witness for the amended C4 sentinel: a 4-base anchor (below
`minAnchorLen`) gives bound 0, and a 100-base skip trips the gate. -/
theorem calculateScore_sentinel_witness :
    (calculateScore
        { fw := true, rdoff := 0, len := 20, tidx := 0, toff := 0,
          edits := [{ pos := 4, kind := EditKind.spl, splLen := 100,
                      splDir := SpliceDir.fwd }] }
        (rdTest 20) probZero scTest 1000).score = -1000 :=
  calculateScore_sentinel_amended _ _ _ _ _ [] []
    { pos := 4, kind := EditKind.spl, splLen := 100, splDir := SpliceDir.fwd }
    rfl rfl rfl (by decide) (Or.inl (by decide))

/-! ### External collaborators for `combineWith` -/

/-- The reference interface: `getStretch`/`getBase` collapse to a single
base-at-offset reader (a fetched stretch starting at `toff` satisfies
`buf[i] = base(tidx, toff+i)`), plus `approxLen`/`numRefs`. -/
structure BitPairReference where
  getBase : Nat → Int → Nat
  approxLen : Nat → Nat
  numRefs : Nat

/-- Splice-site window constants (`donor_exonic_len` etc., splice_site.h) and
the probability model `SpliceSiteDB::probscore`. -/
structure SpliceParams where
  donorExonicLen : Nat
  donorIntronicLen : Nat
  acceptorExonicLen : Nat
  acceptorIntronicLen : Nat
  intronicLen : Nat
  prob : Int → Int → ℚ

/-- A splice site handed in from the splice-site DB; `combineWith` reads only
its `left()` coordinate. -/
structure SpliceSite where
  left : Nat

/-! ### getLeft / getRight with score output (lines 607-692, `score != NULL`) -/

/-- Mismatch score of a recorded mismatch edit, as recomputed from `chr`
/`qchr` (`sc->score(dna2col[qchr]-'0', asc2dnamask[chr], qual-33)`). -/
def editMmScore (h : GenomeHit) (qual : Nat → Nat) (sc : Scoring) (e : Edit) : Int :=
  sc.score e.qchr (asc2dnamaskCode e.chr) (qual (h.rdoff + e.pos) - 33)

/-- Scan of `getLeft`: length of the left partial and accumulated mismatch
score. -/
def getLeftWSGo (h : GenomeHit) (qual : Nat → Nat) (sc : Scoring) :
    List Edit → Int → Nat × Int
  | [], acc => (h.len, acc)
  | e :: rest, acc =>
    if e.isGapType then (e.pos, acc)
    else if e.kind = EditKind.mm then getLeftWSGo h qual sc rest (acc + editMmScore h qual sc e)
    else getLeftWSGo h qual sc rest acc

/-- `getLeft` with its optional score output: `(rdoff, len, toff, score)`. -/
def getLeftWithScore (h : GenomeHit) (rd : Read) (sc : Scoring) : Nat × Nat × Nat × Int :=
  let qual := if h.fw then rd.qual else rd.qualRev
  let (len, score) := getLeftWSGo h qual sc h.edits 0
  (h.rdoff, len, h.toff, score)

/-- Scan of `getRight` (over the reversed edit list): the right partial's
`(rdoff, len, toff)` and accumulated mismatch score. -/
def getRightWSGo (h : GenomeHit) (qual : Nat → Nat) (sc : Scoring) :
    List Edit → Int → (Nat × Nat × Nat) × Int
  | [], acc => ((h.rdoff, h.len, h.toff), acc)
  | e :: rest, acc =>
    if e.isGapType then
      let rdoff := h.rdoff + e.pos
      let len := h.len - e.pos
      let rdoff := if e.kind = EditKind.refGap then rdoff + 1 else rdoff
      let len := if e.kind = EditKind.refGap then len - 1 else len
      ((rdoff, len, getRightOff h - len), acc)
    else if e.kind = EditKind.mm then getRightWSGo h qual sc rest (acc + editMmScore h qual sc e)
    else getRightWSGo h qual sc rest acc

/-- `getRight` with its optional score output: `(rdoff, len, toff, score)`. -/
def getRightWithScore (h : GenomeHit) (rd : Read) (sc : Scoring) : Nat × Nat × Nat × Int :=
  let qual := if h.fw then rd.qual else rd.qualRev
  let ((rdoff, len, toff), score) := getRightWSGo h qual sc h.edits.reverse 0
  (rdoff, len, toff, score)

/-! ### The splice/indel discovery scan of `combineWith` (lines 1105-1446) -/

/-- Forward cumulative mismatch-score array `temp_scores` (lines 1134-1147):
`cumScoresA i` = score of positions `0..i` of the overlap against A's
reference side. -/
def cumScoresA (seq qual : Nat → Nat) (sc : Scoring) (refbuf : Int → Nat) (thisRdoff : Nat) :
    Nat → Int
  | 0 =>
    if seq thisRdoff ≠ refbuf 0 then sc.score (seq thisRdoff) (2 ^ refbuf 0) (qual thisRdoff - 33)
    else 0
  | i + 1 =>
    cumScoresA seq qual sc refbuf thisRdoff i +
      (if seq (thisRdoff + (i+1)) ≠ refbuf (i+1) then
        sc.score (seq (thisRdoff + (i+1))) (2 ^ refbuf (i+1)) (qual (thisRdoff + (i+1)) - 33)
      else 0)

/-- Structural recursion core of `cumScoresB` (`n` counts the remaining
positions `i2..len-1`). -/
def cumScoresBGo (seq qual : Nat → Nat) (sc : Scoring) (refbuf2 : Int → Nat)
    (thisRdoff : Nat) : Nat → Nat → Int
  | 0, _ => 0
  | n + 1, i2 =>
    (if seq (thisRdoff + i2) ≠ refbuf2 (i2 : Int) then
      sc.score (seq (thisRdoff + i2)) (2 ^ refbuf2 (i2 : Int)) (qual (thisRdoff + i2) - 33)
    else 0) + cumScoresBGo seq qual sc refbuf2 thisRdoff n (i2 + 1)

/-- Backward cumulative mismatch-score array `temp_scores2` (lines 1150-1163):
`cumScoresB i2` = score of positions `i2..len-1` against B's reference side. -/
def cumScoresB (seq qual : Nat → Nat) (sc : Scoring) (refbuf2 : Int → Nat)
    (thisRdoff len : Nat) (i2 : Nat) : Int :=
  cumScoresBGo seq qual sc refbuf2 thisRdoff (len - i2) i2

/-- The forward scan's break index: the first `i < len` whose cumulative score
drops below the budget, else `len` (this is `i_limit = min(i, len)`). -/
def forwardBreak (f : Nat → Int) (len : Nat) (budget : Int) : Nat :=
  match (List.range len).find? (fun i => decide (f i < budget)) with
  | some i => i
  | none => len

/-- The backward scan's break index: the largest `i2 < len` whose cumulative
score drops below the budget (the scan runs from `len-1` downward), if any. -/
def backwardBreak (f : Nat → Int) (len : Nat) (budget : Int) : Option Nat :=
  (List.range len).reverse.find? (fun i => decide (f i < budget))

/-- Splice-site dinucleotide encodings (lines 1128-1132): two 2-bit bases in
one byte, high nibble first. -/
def dinuGT : Nat := 0x23
def dinuAG : Nat := 0x02
def dinuGTrc : Nat := 0x01
def dinuAGrc : Nat := 0x13
def dinuGC : Nat := 0x21
def dinuGCrc : Nat := 0x21
def dinuAT : Nat := 0x03
def dinuAC : Nat := 0x01
def dinuATrc : Nat := 0x03
def dinuACrc : Nat := 0x20

/-- Splice-direction classification of a candidate's donor/acceptor
dinucleotides (lines 1187-1192): GT..AG → forward, CT..AC (the reverse
complement pair) → reverse, everything else unknown. -/
def spliceDirOf (donor acceptor : Nat) : SpliceDir :=
  if donor = dinuGT ∧ acceptor = dinuAG then SpliceDir.fwd
  else if donor = dinuAGrc ∧ acceptor = dinuGTrc then SpliceDir.rev
  else SpliceDir.unknown

/-- The semi-canonical test (lines 1193-1194): GC/AG, AT/AC and their listed
reverse complements. -/
def semiCanonical (donor acceptor : Nat) : Bool :=
  (donor = dinuGC ∧ acceptor = dinuAG) ∨ (donor = dinuAT ∧ acceptor = dinuAC) ∨
  (donor = dinuAGrc ∧ acceptor = dinuGCrc) ∨ (donor = dinuACrc ∧ acceptor = dinuATrc)

/-- The splice penalty applied to a candidate (line 1195):
`noncanSpl` for unknown direction, `canSpl` otherwise. -/
def splicePenalty (sc : Scoring) (donor acceptor : Nat) : Int :=
  if spliceDirOf donor acceptor = SpliceDir.unknown then sc.noncanSpl else sc.canSpl

/-- Donor dinucleotide at candidate split `i` (lines 1178-1182); `0xff` when
out of range. -/
def scanDonor (refbuf : Int → Nat) (len : Nat) (thisRefExt : Int) (i : Nat) : Nat :=
  if (i : Int) + 2 < (len : Int) + thisRefExt then refbuf ((i : Int) + 1) * 16 + refbuf ((i : Int) + 2)
  else 0xff

/-- Acceptor dinucleotide at `i2` (lines 1183-1186). -/
def scanAcceptor (refbuf2 : Int → Nat) (otherRefExt : Int) (i2 : Nat) : Nat :=
  if (i2 : Int) - 2 ≥ -otherRefExt then refbuf2 ((i2 : Int) - 2) * 16 + refbuf2 ((i2 : Int) - 1)
  else 0xff

/-- Pack `n` bases read ascending from `lo` into a 2-bit string (`N → 0`). -/
def packBasesAsc (f : Int → Nat) (lo : Int) (n : Nat) : Int :=
  (List.range n).foldl
    (fun acc j =>
      let b := f (lo + (j : Int))
      let b := if b > 3 then 0 else b
      acc * 4 + (b : Int)) 0

/-- Pack `n` bases read descending from `hi`, complemented (`base ^ 0x3`,
`N → 0` first). -/
def packBasesDescRC (f : Int → Nat) (hi : Int) (n : Nat) : Int :=
  (List.range n).foldl
    (fun acc j =>
      let b := f (hi - (j : Int))
      let b := if b > 3 then 0 else b
      acc * 4 + ((b ^^^ 3 : Nat) : Int)) 0

/-- Donor/acceptor window extraction for a direction-classified candidate
(lines 1198-1249): fixed exonic+intronic windows around the two splice ends,
reverse-complemented for reverse splices; `(0, 0)` when a window does not fit. -/
def scanSpliceSeqs (refbuf refbuf2 : Int → Nat) (len : Nat) (thisRefExt otherRefExt : Int)
    (sp : SpliceParams) (spldir : SpliceDir) (i i2 : Nat) : Int × Int :=
  match spldir with
  | SpliceDir.fwd =>
    if (i : Int) + 1 ≥ (sp.donorExonicLen : Int) ∧
       (len : Int) + thisRefExt > (i : Int) + (sp.donorIntronicLen : Int) ∧
       (i2 : Int) + otherRefExt ≥ (sp.acceptorIntronicLen : Int) ∧
       (len : Int) > (i2 : Int) + (sp.acceptorExonicLen : Int) - 1 then
      (packBasesAsc refbuf ((i : Int) + 1 - sp.donorExonicLen)
         (sp.donorExonicLen + sp.donorIntronicLen),
       packBasesAsc refbuf2 ((i2 : Int) - sp.acceptorIntronicLen)
         (sp.acceptorIntronicLen + sp.acceptorExonicLen))
    else (0, 0)
  | SpliceDir.rev =>
    if (i : Int) + 1 ≥ (sp.acceptorExonicLen : Int) ∧
       (len : Int) + thisRefExt > (i : Int) + (sp.acceptorIntronicLen : Int) ∧
       (i2 : Int) + otherRefExt ≥ (sp.donorIntronicLen : Int) ∧
       (len : Int) > (i2 : Int) + (sp.donorExonicLen : Int) - 1 then
      (packBasesDescRC refbuf2 ((i2 : Int) + sp.donorExonicLen - 1)
         (sp.donorIntronicLen + sp.donorExonicLen),
       packBasesDescRC refbuf ((i : Int) + sp.acceptorIntronicLen)
         (sp.acceptorExonicLen + sp.acceptorIntronicLen))
    else (0, 0)
  | SpliceDir.unknown => (0, 0)

/-- Best-candidate state of the discovery scan (`maxscore`, `maxscorei`,
`maxspldir`, `maxsplscore`, `donor_seq`, `acceptor_seq`; lines 1106-1112). -/
structure SpliceScanState where
  maxscore : Int := minI64
  maxscorei : Nat := offMask
  maxspldir : SpliceDir := SpliceDir.unknown
  maxsplscore : ℚ := 0
  donorSeq : Int := 0
  acceptorSeq : Int := 0
deriving DecidableEq, Repr

/-- One candidate of the splice discovery scan (lines 1176-1270): classify the
dinucleotides, apply the splice penalty, extract and score the windows, and
keep the candidate if it is preferred (higher score; semi-canonical breaks
score ties among unknown-direction candidates; a classified candidate always
beats an unknown-direction one; among classified ones the probability score
breaks ties). -/
def spliceScanStep (sc : Scoring) (sp : SpliceParams) (refbuf refbuf2 : Int → Nat)
    (len : Nat) (thisRefExt otherRefExt : Int) (cumA cumB : Nat → Int)
    (st : SpliceScanState) (i : Nat) : SpliceScanState :=
  let i2 := i + 1
  let tempscore0 := cumA i + cumB i2
  let donor := scanDonor refbuf len thisRefExt i
  let acceptor := scanAcceptor refbuf2 otherRefExt i2
  let spldir := spliceDirOf donor acceptor
  let semi := semiCanonical donor acceptor
  let tempscore := tempscore0 - splicePenalty sc donor acceptor
  let seqs :=
    if spldir ≠ SpliceDir.unknown then
      scanSpliceSeqs refbuf refbuf2 len thisRefExt otherRefExt sp spldir i i2
    else (0, 0)
  let splscore : ℚ := if spldir ≠ SpliceDir.unknown then sp.prob seqs.1 seqs.2 else 0
  if (st.maxspldir = SpliceDir.unknown ∧ spldir = SpliceDir.unknown ∧ st.maxscore < tempscore) ∨
     (st.maxspldir = SpliceDir.unknown ∧ spldir = SpliceDir.unknown ∧
       st.maxscore = tempscore ∧ semi = true) ∨
     (st.maxspldir ≠ SpliceDir.unknown ∧ spldir ≠ SpliceDir.unknown ∧
       (st.maxscore < tempscore ∨ (st.maxscore = tempscore ∧ st.maxsplscore < splscore))) ∨
     (st.maxspldir = SpliceDir.unknown ∧ spldir ≠ SpliceDir.unknown) then
    { maxscore := tempscore, maxscorei := i, maxspldir := spldir, maxsplscore := splscore,
      donorSeq := if spldir ≠ SpliceDir.unknown then seqs.1 else 0,
      acceptorSeq := if spldir ≠ SpliceDir.unknown then seqs.2 else 0 }
  else st

/-- The splice discovery scan: `i` from `i2Limit` while `i < iLimit` and
`i + 1 < len` (lines 1174-1271). -/
def spliceScan (sc : Scoring) (sp : SpliceParams) (refbuf refbuf2 : Int → Nat)
    (len : Nat) (thisRefExt otherRefExt : Int) (cumA cumB : Nat → Int)
    (i2Limit iLimit : Nat) : SpliceScanState :=
  (List.range (min iLimit (len - 1) - i2Limit)).foldl
    (fun st k =>
      spliceScanStep sc sp refbuf refbuf2 len thisRefExt otherRefExt cumA cumB st (i2Limit + k))
    {}

/-- The indel discovery scan (lines 1414-1423): maximize
`cumA i + cumB (i+1+inslen) + gapPenalty`, first maximum kept. -/
def indelScan (cumA cumB : Nat → Int) (gapPenalty : Int) (i2Limit iLimit len inslen : Nat) :
    Int × Nat :=
  (List.range (min iLimit (len - 1 - inslen) - i2Limit)).foldl
    (fun acc k =>
      let i := i2Limit + k
      let tempscore := cumA i + cumB (i + 1 + inslen) + gapPenalty
      if acc.1 < tempscore then (tempscore, i) else acc)
    (minI64, offMask)

/-! ### leftAlign (hi_aligner.h lines 1922-1978)

The in-place array walk is embedded over `List Edit` with `List.set` /
`List.getD`; all indices touched by the source are in bounds, where `List.set`
and `List.getD` agree with the array semantics. -/

/-- End of the run of same-direction indel edits starting at `ei`
(lines 1932-1944): the last index `ei2` such that every edit in `[ei, ei2]`
has the run's type and the run's position pattern. -/
def laRunEndGo (edits : List Edit) (e : Edit) (ei : Nat) : Nat → Nat → Nat
  | 0, ei2 => ei2 - 1
  | fuel + 1, ei2 =>
    if ei2 < edits.length then
      let e2 := edits.getD ei2 default
      if e2.kind = e.kind ∧
         (if e.kind = EditKind.readGap then e.pos = e2.pos else e.pos + (ei2 - ei) = e2.pos) then
        laRunEndGo edits e ei fuel (ei2 + 1)
      else ei2 - 1
    else ei2 - 1

/-- The character-shuffling pass across the run (lines 1958-1965): for `ei3`
from `ei2` down to `ei+1`, pull the previous edit's tag and shift positions. -/
def laShift (edits : List Edit) (isReadGap : Bool) (ei ei2 : Nat) : List Edit :=
  (List.range (ei2 - ei)).foldl
    (fun es k =>
      let ei3 := ei2 - k
      let prev := es.getD (ei3 - 1) default
      let cur := es.getD ei3 default
      let cur := if isReadGap then { cur with chr := prev.chr } else { cur with qchr := prev.qchr }
      es.set ei3 { cur with pos := cur.pos - 1 })
    edits

/-- The sliding loop (lines 1952-1975): while the displaced base matches the
run's trailing tag, move the whole run one base left. -/
def laSlide (seq : Nat → Nat) (rdoff : Nat) (ei ei2 : Nat) (b : Int) :
    Nat → Int → List Edit → List Edit
  | 0, _, edits => edits
  | fuel + 1, l, edits =>
    if l > b then
      let rdc := seq (rdoff + l.toNat)
      let isReadGap := (edits.getD ei default).kind = EditKind.readGap
      let e2 := edits.getD ei2 default
      let rfc := if isReadGap then e2.chr else e2.qchr
      if rfc ≠ rdc then edits
      else
        let edits := laShift edits isReadGap ei ei2
        let e := edits.getD ei default
        let e := if isReadGap then { e with chr := rdc } else { e with qchr := rdc }
        let edits := edits.set ei { e with pos := e.pos - 1 }
        laSlide seq rdoff ei ei2 b fuel (l - 1) edits
    else edits

/-- The outer edit walk of `leftAlign` (lines 1927-1977). -/
def laOuter (seq : Nat → Nat) (rdoff : Nat) : Nat → Nat → List Edit → List Edit
  | 0, _, edits => edits
  | fuel + 1, ei, edits =>
    if ei < edits.length then
      let e := edits.getD ei default
      if e.kind ≠ EditKind.readGap ∧ e.kind ≠ EditKind.refGap then
        laOuter seq rdoff fuel (ei + 1) edits
      else
        let ei2 := laRunEndGo edits e ei edits.length (ei + 1)
        let b : Int := if ei > 0 then ((edits.getD (ei - 1) default).pos : Int) else 0
        let l : Int := ((edits.getD ei default).pos : Int) - 1
        let edits := laSlide seq rdoff ei ei2 b (edits.getD ei default).pos l edits
        laOuter seq rdoff fuel (ei2 + 1) edits
    else edits

/-- `GenomeHit::leftAlign` (lines 1922-1978). -/
def leftAlign (h : GenomeHit) (rd : Read) : GenomeHit :=
  let seq := if h.fw then rd.patFw else rd.patRc
  { h with edits := laOuter seq h.rdoff h.edits.length 0 h.edits }

/-! ### Edit assembly of `combineWith` (lines 1448-1601) -/

/-- Keep this hit's edits up to and including the last indel/splice edit;
clear them if there is none (lines 1448-1459). -/
def keepThroughLastGap (edits : List Edit) : List Edit :=
  match edits.reverse.findIdx? (fun e => e.isGapType) with
  | none => []
  | some k => edits.take (edits.length - k)

/-- Index of the first indel/splice edit of the other hit (`fsi`,
lines 1581-1590); its suffix from there is appended after the join. -/
def firstGapIdx (edits : List Edit) : Nat :=
  edits.findIdx (fun e => e.isGapType)

/-- The splice edit pushed at the chosen split (lines 1505-1508): position
`i+1+addoff`, skip `right - left`, the scan's direction and window sequences,
and `knownSpl` set exactly when a DB splice site was supplied. -/
def combineSpliceEdit (pos skipLen : Nat) (dir : SpliceDir) (known : Bool)
    (donorSeq acceptorSeq : Int) : Edit :=
  { pos := pos, kind := EditKind.spl, chr := 0, qchr := 0, splLen := skipLen, splDir := dir,
    knownSpl := known, donorSeq := donorSeq, acceptorSeq := acceptorSeq }

/-- The spliced-case emission loop (lines 1461-1537), specialized by
`splice_gap_maxscorei = OFF_MASK` and `splice_gap_off = 0` (lines 1111-1113;
the indel-near-splice pass that would set them otherwise is compiled out, so
its `rd_gap_off = ref_gap_off = 0` and the `i == splice_gap_maxscorei &&
splice_gap_off != 0` gap-emission branch is statically dead and omitted).
Gap characters `'-'` are coded as `5`. -/
def emitSpliced (seq : Nat → Nat) (refbuf refbuf2 : Int → Nat)
    (thisRdoff addoff len : Nat) (st : SpliceScanState) (known : Bool)
    (thisToff otherToff otherLen : Nat) : List Edit :=
  let spliceGapMaxI : Nat := offMask
  (List.range len).foldl
    (fun acc i =>
      let rdc := seq (thisRdoff + i)
      let rfc :=
        if spliceGapMaxI ≤ st.maxscorei then
          if i ≤ spliceGapMaxI then refbuf (i : Int)
          else if i ≤ st.maxscorei then refbuf (i : Int)
          else refbuf2 (i : Int)
        else
          if i ≤ st.maxscorei then refbuf (i : Int)
          else if i ≤ spliceGapMaxI then refbuf2 (i : Int)
          else refbuf2 (i : Int)
      let acc :=
        if rdc ≠ rfc then
          acc ++ [{ pos := i + addoff, kind := EditKind.mm, chr := rfc, qchr := rdc }]
        else acc
      if i = st.maxscorei then
        let left := thisToff + i + 1
        let right := otherToff + otherLen - (len - i - 1)
        let skipLen := right - left
        acc ++ [combineSpliceEdit (i + 1 + addoff) skipLen st.maxspldir known
                  st.donorSeq st.acceptorSeq]
      else acc)
    []

/-- One position of the unspliced emission loop: the mismatch push
(lines 1539-1547). -/
def emitSimpleMm (seq : Nat → Nat) (refbuf refbuf2 : Int → Nat)
    (thisRdoff addoff maxscorei i : Nat) (acc : List Edit) : List Edit :=
  let rdc := seq (thisRdoff + i)
  let rfc := if i ≤ maxscorei then refbuf (i : Int) else refbuf2 (i : Int)
  if rdc ≠ rfc then
    acc ++ [{ pos := i + addoff, kind := EditKind.mm, chr := rfc, qchr := rdc }]
  else acc

/-- The read-gap run pushed at a deletion split (lines 1552-1563); the gap
character `'-'` is coded `5`. -/
def emitDelGaps (refbuf : Int → Nat) (ref : BitPairReference)
    (tidx thisToff addoff len i skipLen : Nat) : List Edit :=
  (List.range skipLen).map (fun j =>
    let rfcj := if i + 1 + j < len then refbuf ((i : Int) + 1 + j)
                else ref.getBase tidx ((thisToff : Int) + i + 1 + j)
    { pos := i + 1 + addoff, kind := EditKind.readGap, chr := rfcj, qchr := 5 })

/-- The ref-gap run pushed at an insertion split (lines 1564-1575). -/
def emitInsGaps (seq : Nat → Nat) (thisRdoff addoff i skipLen : Nat) : List Edit :=
  (List.range skipLen).map (fun j =>
    { pos := i + 1 + j + addoff, kind := EditKind.refGap, chr := 5,
      qchr := seq (thisRdoff + i + 1 + j) })

/-- The unspliced emission loop (lines 1539-1579): mismatches across the
overlap and the read-gap/ref-gap run at the split (`i` jumps over an inserted
stretch, hence the explicit recursion). -/
def emitSimple (seq : Nat → Nat) (refbuf refbuf2 : Int → Nat) (ref : BitPairReference)
    (tidx thisRdoff addoff thisToff otherToff otherLen len : Nat)
    (maxscorei : Nat) (del ins : Bool) : Nat → Nat → List Edit → List Edit
  | 0, _, acc => acc
  | fuel + 1, i, acc =>
    if i < len then
      let acc := emitSimpleMm seq refbuf refbuf2 thisRdoff addoff maxscorei i acc
      if i = maxscorei then
        let left := thisToff + i + 1
        let right := otherToff + otherLen - (len - i - 1)
        if del then
          let skipLen := right - left
          let acc := acc ++ emitDelGaps refbuf ref tidx thisToff addoff len i skipLen
          emitSimple seq refbuf refbuf2 ref tidx thisRdoff addoff thisToff otherToff otherLen
            len maxscorei del ins fuel (i + 1) acc
        else
          let skipLen := left - right
          let acc := acc ++ emitInsGaps seq thisRdoff addoff i skipLen
          emitSimple seq refbuf refbuf2 ref tidx thisRdoff addoff thisToff otherToff otherLen
            len maxscorei del ins fuel (i + skipLen + 1) acc
      else
        emitSimple seq refbuf refbuf2 ref tidx thisRdoff addoff thisToff otherToff otherLen
          len maxscorei del ins fuel (i + 1) acc
    else acc

/-! ### combineWith (hi_aligner.h lines 969-1618) -/

/-- `GenomeHit::combineWith`.  `none` embeds `return false` (the source
performs no writes to `this` before any of its `return false` statements);
`some h'` embeds `return true` with `this` mutated to `h'`.  The unused
parameters of the source signature (`swa`, `swm`, `rnd`, `minK_local`) are
dropped; `sameObj` embeds `this == &otherHit`.  The reference buffers are
`refbuf i = base(_tidx, this_toff + i)` and
`refbuf2 i = base(other._tidx, other_toff + other_len - len + i)`
(`getStretch` semantics, including the extension slack on either side). -/
def combineWith (h o : GenomeHit) (rd : Read) (ref : BitPairReference) (sp : SpliceParams)
    (sc : Scoring) (minsc : Int) (minIntronLen maxIntronLen : Nat)
    (canMal : Nat := minAnchorLen) (noncanMal : Nat := minAnchorLen_noncan)
    (spliceSite : Option SpliceSite := none) (noSplicedAlignment : Bool := false)
    (sameObj : Bool := false) : Option GenomeHit :=
  if sameObj then none
  else
    let seq := if h.fw then rd.patFw else rd.patRc
    let qual := if h.fw then rd.qual else rd.qualRev
    let tr := getRightWithScore h rd sc
    let (thisRdoff, thisLen, thisToff, thisScore) := tr
    let ol := getLeftWithScore o rd sc
    let (otherRdoff, otherLen, otherToff, otherScore) := ol
    if thisLen ≠ 0 ∧ otherLen ≠ 0 ∧ thisRdoff + thisLen ≥ otherRdoff + otherLen then none
    else
      let len := otherRdoff - thisRdoff + otherLen
      let reflen := ref.approxLen h.tidx
      if thisToff + len > reflen then none
      else
        let refdif := otherToff - thisToff
        let rddif := otherRdoff - thisRdoff
        let spliced : Bool := refdif ≠ rddif ∧ refdif > rddif ∧ refdif - rddif ≥ minIntronLen
        let del : Bool := refdif ≠ rddif ∧ refdif > rddif ∧ refdif - rddif < minIntronLen
        let ins : Bool := refdif ≠ rddif ∧ ¬(refdif > rddif)
        if noSplicedAlignment && spliced then none
        else if !spliced && !ins && !del && decide (thisRdoff + thisLen = otherRdoff) then
          -- lines 1055-1072: plain concatenation, no indel or intron
          let addoff := o.rdoff - h.rdoff
          let h' :=
            { h with edits := h.edits ++ o.edits.map (fun e => { e with pos := e.pos + addoff }),
                     len := h.len + o.len }
          some (calculateScore h' rd sp.prob sc maxIntronLen)
        else
          let rdlen := rd.len
          let remainsc := minsc - (h.score - thisScore) - (o.score - otherScore)
          let remainsc := if remainsc > 0 then 0 else remainsc
          let readGaps : Int := if spliced then sc.maxReadGaps (remainsc + sc.canSpl) rdlen else 0
          let thisRefExt : Int := readGaps + (if spliced then (sp.intronicLen : Int) else 0)
          let thisRefExt : Int :=
            if (thisToff : Int) + (len : Int) + thisRefExt > (reflen : Int) then
              (reflen : Int) - ((thisToff : Int) + (len : Int))
            else thisRefExt
          let refbuf : Int → Nat := fun i => ref.getBase h.tidx ((thisToff : Int) + i)
          let refbuf2 : Int → Nat :=
            fun i => ref.getBase o.tidx ((otherToff : Int) + (otherLen : Int) - (len : Int) + i)
          let otherRefExt : Int :=
            min (readGaps + (sp.intronicLen : Int)) ((otherToff : Int) + (otherLen : Int) - (len : Int))
          let cumA := cumScoresA seq qual sc refbuf thisRdoff
          let cumB := cumScoresB seq qual sc refbuf2 thisRdoff len
          let discovered : Option SpliceScanState :=
            if spliced || ins || del then
              let core : Option SpliceScanState :=
                if spliced then
                  let iLimit := forwardBreak cumA len remainsc
                  let i2Limit := (backwardBreak cumB len remainsc).getD 0
                  let lims : Nat × Nat :=
                    match spliceSite with
                    | some ss =>
                      let d := ss.left - thisToff
                      if i2Limit ≤ d then (d, d + 1) else (i2Limit, i2Limit)
                    | none => (i2Limit, iLimit)
                  some (spliceScan sc sp refbuf refbuf2 len thisRefExt otherRefExt cumA cumB
                          lims.1 lims.2)
                else
                  -- lines 1370-1423: insertion / deletion discovery
                  let inslen : Nat := if ins then rddif - refdif else 0
                  let dellen : Nat := if del then refdif - rddif else 0
                  let gapPenalty : Int :=
                    if ins then -(sc.refGapOpen + sc.refGapExtend * ((inslen : Int) - 1))
                    else -(sc.readGapOpen + sc.readGapExtend * ((dellen : Int) - 1))
                  if gapPenalty < remainsc then none
                  else
                    let iLimit := forwardBreak cumA len (remainsc - gapPenalty)
                    let i2Limit : Nat :=
                      match backwardBreak cumB len (remainsc - gapPenalty) with
                      | none => 0
                      | some b => if b < inslen then 0 else b - inslen
                    let (ms, mi) := indelScan cumA cumB gapPenalty i2Limit iLimit len inslen
                    some { maxscore := ms, maxscorei := mi }
              match core with
              | none => none
              | some dst =>
                if dst.maxscore = minI64 then none
                else
                  let rejectAnchor : Bool :=
                    if spliced && spliceSite.isNone then
                      let shorterAnchorLen := min (dst.maxscorei + 1) (len - dst.maxscorei - 1)
                      if dst.maxspldir = SpliceDir.unknown then
                        if shorterAnchorLen < noncanMal then
                          intronLen_prob_noncan shorterAnchorLen (otherToff - thisToff)
                              maxIntronLen > (0.01 : ℚ)
                        else false
                      else
                        if shorterAnchorLen < canMal then
                          intronLen_prob shorterAnchorLen (otherToff - thisToff)
                              maxIntronLen > (0.01 : ℚ)
                        else false
                    else false
                  if rejectAnchor then none
                  else if dst.maxscore < remainsc then none
                  else some dst
            else some {}
          Option.map (fun dst =>
            let kept := keepThroughLastGap h.edits
            let addoffEmit := thisRdoff - h.rdoff
            let newEdits :=
              if spliced then
                kept ++ emitSpliced seq refbuf refbuf2 thisRdoff addoffEmit len dst
                  spliceSite.isSome thisToff otherToff otherLen
              else
                kept ++ emitSimple seq refbuf refbuf2 ref h.tidx thisRdoff addoffEmit thisToff
                  otherToff otherLen len dst.maxscorei del ins (len + 1) 0 []
            let addoff := o.rdoff - h.rdoff
            let fsi := firstGapIdx o.edits
            let newEdits := newEdits ++ (o.edits.drop fsi).map (fun e => { e with pos := e.pos + addoff })
            let h' := { h with edits := newEdits }
            let h' := if ins || del then leftAlign h' rd else h'
            let h' := { h' with len := o.rdoff + o.len - h.rdoff }
            let h' := calculateScore h' rd sp.prob sc maxIntronLen
            { h' with trim3 := h'.trim3 + o.trim3 }) discovered

/-! ### Claim C1: `combineWith` is idempotent on already-combined hits -/

/-- Well-formedness of an initialized hit, mirroring the source's debug
assertions: nonempty window; edit positions `< len` (repOk/`calculateScore`
line 2099); indel/splice edits at positive positions (`combineWith` emits
them at `pos ≥ 1`, lines 1505/1522/1561); a ref-gap not at the last position
(`getRight`, line 673). -/
def wfHit (h : GenomeHit) : Prop :=
  0 < h.len ∧
  ∀ e ∈ h.edits, e.pos < h.len ∧ (e.isGapType = true → 0 < e.pos) ∧
    (e.kind = EditKind.refGap → e.pos + 1 < h.len)

/-- Under `wfHit`, the right partial is nonempty and ends at the hit's end. -/
theorem getRightWSGo_extent (h : GenomeHit) (qual : Nat → Nat) (sc : Scoring) :
    ∀ (es : List Edit) (acc : Int),
      (∀ e ∈ es, e.pos < h.len ∧ (e.isGapType = true → 0 < e.pos) ∧
        (e.kind = EditKind.refGap → e.pos + 1 < h.len)) →
      0 < h.len →
      0 < (getRightWSGo h qual sc es acc).1.2.1 ∧
        (getRightWSGo h qual sc es acc).1.1 + (getRightWSGo h qual sc es acc).1.2.1 =
          h.rdoff + h.len := by
  intro es
  induction es with
  | nil => intro acc _ hlen; simp [getRightWSGo]; omega
  | cons e rest ih =>
    intro acc hes hlen
    have he := hes e (by simp)
    have hpos := he.1
    by_cases hg : e.isGapType = true
    · have hp0 := he.2.1 hg
      simp only [getRightWSGo, hg, if_true]
      by_cases hrg : e.kind = EditKind.refGap
      · have hp1 := he.2.2 hrg
        simp only [hrg, eq_self_iff_true, if_true]
        constructor <;> omega
      · rw [if_neg hrg, if_neg hrg]
        constructor <;> omega
    · simp only [getRightWSGo, hg, Bool.false_eq_true, if_false]
      split
      · exact ih _ (fun e2 he2 => hes e2 (by simp [he2])) hlen
      · exact ih _ (fun e2 he2 => hes e2 (by simp [he2])) hlen

/-- Under `wfHit`, the left partial is nonempty and no longer than the hit. -/
theorem getLeftWSGo_extent (h : GenomeHit) (qual : Nat → Nat) (sc : Scoring) :
    ∀ (es : List Edit) (acc : Int),
      (∀ e ∈ es, e.pos < h.len ∧ (e.isGapType = true → 0 < e.pos)) →
      0 < h.len →
      0 < (getLeftWSGo h qual sc es acc).1 ∧ (getLeftWSGo h qual sc es acc).1 ≤ h.len := by
  intro es
  induction es with
  | nil => intro acc _ hlen; simp [getLeftWSGo]; omega
  | cons e rest ih =>
    intro acc hes hlen
    have he := hes e (by simp)
    by_cases hg : e.isGapType = true
    · have hp0 := he.2 hg
      have hpos := he.1
      simp only [getLeftWSGo, hg, if_true]
      constructor <;> omega
    · simp only [getLeftWSGo, hg, Bool.false_eq_true, if_false]
      split
      · exact ih _ (fun e2 he2 => hes e2 (by simp [he2])) hlen
      · exact ih _ (fun e2 he2 => hes e2 (by simp [he2])) hlen

/-- C1: combining a well-formed hit with a copy of itself fails.  In the
source, every `return false` of `combineWith` happens before any write to
`this`, so `none` here is exactly "returns `false` and leaves every field of
A (strand, rdoff, len, trims, tidx, toff, edits, score) unchanged". -/
theorem combineWith_self_fails (h : GenomeHit) (rd : Read) (ref : BitPairReference)
    (sp : SpliceParams) (sc : Scoring) (minsc : Int) (minIntronLen maxIntronLen : Nat)
    (canMal noncanMal : Nat) (spliceSite : Option SpliceSite) (noSplicedAlignment : Bool)
    (hwf : wfHit h) :
    combineWith h h rd ref sp sc minsc minIntronLen maxIntronLen canMal noncanMal
        spliceSite noSplicedAlignment false = none := by
  obtain ⟨hlen, hes⟩ := hwf
  have hr := getRightWSGo_extent h (if h.fw then rd.qual else rd.qualRev) sc h.edits.reverse 0
    (fun e he => hes e (by simpa using he)) hlen
  have hl := getLeftWSGo_extent h (if h.fw then rd.qual else rd.qualRev) sc h.edits 0
    (fun e he => ⟨(hes e he).1, (hes e he).2.1⟩) hlen
  simp only [combineWith, Bool.false_eq_true, if_false, getRightWithScore, getLeftWithScore]
  rw [if_pos ?_]
  rcases hgr : getRightWSGo h (if h.fw then rd.qual else rd.qualRev) sc h.edits.reverse 0
    with ⟨⟨trd, tlen, ttoff⟩, tsc⟩
  rcases hgl : getLeftWSGo h (if h.fw then rd.qual else rd.qualRev) sc h.edits 0
    with ⟨olen, osc⟩
  rw [hgr] at hr
  rw [hgl] at hl
  simp only at hr hl ⊢
  refine ⟨by omega, by omega, by omega⟩

/-- Concrete reference fixture: 1000 `A`s per contig. -/
def refTest : BitPairReference :=
  { getBase := fun _ _ => 0, approxLen := fun _ => 1000, numRefs := 1 }

/-- Concrete splice-site parameter fixture. -/
def spTest : SpliceParams :=
  { donorExonicLen := 0, donorIntronicLen := 0, acceptorExonicLen := 0,
    acceptorIntronicLen := 0, intronicLen := 0, prob := fun _ _ => (0.9 : ℚ) }

/-- Witness for C1 at a concrete hit with one mismatch edit. -/
theorem combineWith_self_fails_witness :
    combineWith
      { fw := true, rdoff := 0, len := 5, tidx := 0, toff := 10,
        edits := [{ pos := 2, kind := EditKind.mm, chr := 1, qchr := 2 }] }
      { fw := true, rdoff := 0, len := 5, tidx := 0, toff := 10,
        edits := [{ pos := 2, kind := EditKind.mm, chr := 1, qchr := 2 }] }
      (rdTest 10) refTest spTest scTest 0 20 1000 minAnchorLen minAnchorLen_noncan
      none false false = none :=
  combineWith_self_fails _ _ _ _ _ _ _ _ _ _ _ _ (by constructor <;> decide)

/-! ### Claim C7: which candidates receive the `canSpl` penalty -/

/-- C7 counterexample: the semi-canonical pair GC/AG classifies as *unknown*
direction (the `donor == GC` disjunct is commented out in lines 1188-1192), so
the scan applies `noncanSpl`, not `canSpl`, to it; `semi_canonical` is only a
tie-breaker. -/
theorem splicePenalty_semicanonical_counterexample :
    semiCanonical dinuGC dinuAG = true ∧
      spliceDirOf dinuGC dinuAG = SpliceDir.unknown ∧
      splicePenalty scTest dinuGC dinuAG = scTest.noncanSpl ∧
      scTest.noncanSpl ≠ scTest.canSpl := by
  refine ⟨by decide, by decide, by decide, by decide⟩

/-- C7 amended: in `combineWith`'s scan the `canSpl` penalty is applied to a
candidate exactly when its donor/acceptor dinucleotides are canonical — GT/AG
or its reverse complement (CT..AC, encoded `AGrc`/`GTrc`); every other pair,
including the semi-canonical ones, classifies as unknown direction and
receives `noncanSpl`. -/
theorem splicePenalty_amended (sc : Scoring) (donor acceptor : Nat) :
    splicePenalty sc donor acceptor =
      if (donor = dinuGT ∧ acceptor = dinuAG) ∨ (donor = dinuAGrc ∧ acceptor = dinuGTrc) then
        sc.canSpl
      else sc.noncanSpl := by
  unfold splicePenalty spliceDirOf
  split_ifs <;> tauto

/-! ### Claim C10: known splices carry no penalty and no gate -/

/-- The `(type, knownSpl)` footprint of an edit; `leftAlign` never changes it
(it rewrites only `pos`/`chr`/`qchr` of indel-run members). -/
def Edit.kindKnown (e : Edit) : EditKind × Bool := (e.kind, e.knownSpl)

theorem kindKnown_set (l : List Edit) :
    ∀ (i : Nat) (v : Edit), v.kindKnown = (l.getD i default).kindKnown →
      (l.set i v).map Edit.kindKnown = l.map Edit.kindKnown := by
  induction l with
  | nil => intro i v _; simp
  | cons x xs ih =>
    intro i v hv
    cases i with
    | zero => simp_all [List.getD]
    | succ n =>
      simp only [List.set, List.map]
      rw [ih n v (by simpa [List.getD] using hv)]

theorem laShift_kindKnown (edits : List Edit) (isReadGap : Bool) (ei ei2 : Nat) :
    (laShift edits isReadGap ei ei2).map Edit.kindKnown = edits.map Edit.kindKnown := by
  unfold laShift
  generalize List.range (ei2 - ei) = ks
  induction ks generalizing edits with
  | nil => rfl
  | cons k ks ih =>
    simp only [List.foldl]
    rw [ih]
    apply kindKnown_set
    split <;> rfl

theorem laSlide_kindKnown (seq : Nat → Nat) (rdoff ei ei2 : Nat) (b : Int) :
    ∀ (fuel : Nat) (l : Int) (edits : List Edit),
      (laSlide seq rdoff ei ei2 b fuel l edits).map Edit.kindKnown =
        edits.map Edit.kindKnown := by
  intro fuel
  induction fuel with
  | zero => intro l edits; rfl
  | succ fuel ih =>
    intro l edits
    rw [laSlide]
    by_cases hl : l > b
    · rw [if_pos hl]
      by_cases hc : (if (edits.getD ei default).kind = EditKind.readGap then
          (edits.getD ei2 default).chr else (edits.getD ei2 default).qchr) ≠
          seq (rdoff + l.toNat)
      · rw [if_pos hc]
      · rw [if_neg hc, ih, kindKnown_set, laShift_kindKnown]
        split <;> rfl
    · rw [if_neg hl]

theorem laOuter_kindKnown (seq : Nat → Nat) (rdoff : Nat) :
    ∀ (fuel ei : Nat) (edits : List Edit),
      (laOuter seq rdoff fuel ei edits).map Edit.kindKnown = edits.map Edit.kindKnown := by
  intro fuel
  induction fuel with
  | zero => intro ei edits; rfl
  | succ fuel ih =>
    intro ei edits
    simp only [laOuter]
    split
    · split
      · rw [ih]
      · rw [ih, laSlide_kindKnown]
    · rfl

/-- `leftAlign` preserves each edit's type and known-splice flag. -/
theorem leftAlign_kindKnown (h : GenomeHit) (rd : Read) :
    (leftAlign h rd).edits.map Edit.kindKnown = h.edits.map Edit.kindKnown := by
  unfold leftAlign
  exact laOuter_kindKnown _ _ _ _ _

/-- A property closed under a fold's step is carried through the fold. -/
theorem foldl_all_edits {β : Type} (p : Edit → Prop) (f : List Edit → β → List Edit)
    (hf : ∀ acc b, (∀ x ∈ acc, p x) → ∀ e ∈ f acc b, p e) :
    ∀ (ks : List β) (acc : List Edit), (∀ x ∈ acc, p x) → ∀ e ∈ ks.foldl f acc, p e := by
  intro ks
  induction ks with
  | nil => intro acc hacc e he; exact hacc e he
  | cons k ks ih =>
    intro acc hacc e he
    exact ih (f acc k) (hf acc k hacc) e he

/-- Membership in a conditionally extended list. -/
theorem mem_ite_append_single {e x : Edit} {l : List Edit} {c : Prop} [Decidable c]
    (he : e ∈ if c then l ++ [x] else l) : e ∈ l ∨ e = x := by
  split at he
  · simpa using he
  · exact Or.inl he

/-- Every splice edit produced by the spliced emission loop carries the
`known` flag it was given (the only splice pushed is `combineSpliceEdit`). -/
theorem emitSpliced_spl_flag (seq : Nat → Nat) (refbuf refbuf2 : Int → Nat)
    (thisRdoff addoff len : Nat) (st : SpliceScanState) (known : Bool)
    (thisToff otherToff otherLen : Nat) :
    ∀ e ∈ emitSpliced seq refbuf refbuf2 thisRdoff addoff len st known thisToff otherToff
        otherLen,
      e.kind = EditKind.spl → e.knownSpl = known := by
  unfold emitSpliced
  apply foldl_all_edits (fun e => e.kind = EditKind.spl → e.knownSpl = known)
  · intro acc i hacc e he
    rcases mem_ite_append_single he with he2 | he2
    · rcases mem_ite_append_single he2 with he3 | he3
      · exact hacc e he3
      · subst he3
        intro hk
        exact absurd hk (by simp)
    · subst he2
      intro _
      rfl
  · simp

/-- The mismatch push preserves splice-freeness. -/
theorem emitSimpleMm_no_spl (seq : Nat → Nat) (refbuf refbuf2 : Int → Nat)
    (thisRdoff addoff maxscorei i : Nat) (acc : List Edit)
    (hacc : ∀ x ∈ acc, x.kind ≠ EditKind.spl) :
    ∀ x ∈ emitSimpleMm seq refbuf refbuf2 thisRdoff addoff maxscorei i acc,
      x.kind ≠ EditKind.spl := by
  intro x hx
  rcases mem_ite_append_single hx with hx2 | hx2
  · exact hacc x hx2
  · subst hx2; simp

/-- The unspliced emission loop produces no splice edits at all. -/
theorem emitSimple_no_spl (seq : Nat → Nat) (refbuf refbuf2 : Int → Nat)
    (ref : BitPairReference)
    (tidx thisRdoff addoff thisToff otherToff otherLen len maxscorei : Nat) (del ins : Bool) :
    ∀ (fuel i : Nat) (acc : List Edit), (∀ x ∈ acc, x.kind ≠ EditKind.spl) →
      ∀ e ∈ emitSimple seq refbuf refbuf2 ref tidx thisRdoff addoff thisToff otherToff otherLen
          len maxscorei del ins fuel i acc,
        e.kind ≠ EditKind.spl := by
  intro fuel
  induction fuel with
  | zero => intro i acc hacc e he; exact hacc e he
  | succ fuel ih =>
    intro i acc hacc e he
    rw [emitSimple] at he
    have hmm := emitSimpleMm_no_spl seq refbuf refbuf2 thisRdoff addoff maxscorei i acc hacc
    split at he
    · split at he
      · split at he
        · refine ih _ _ ?_ e he
          intro x hx
          simp only [List.mem_append] at hx
          rcases hx with hx | hx
          · exact hmm x hx
          · simp only [emitDelGaps, List.mem_map, List.mem_range] at hx
            obtain ⟨j, _, hx⟩ := hx
            subst hx; simp
        · refine ih _ _ ?_ e he
          intro x hx
          simp only [List.mem_append] at hx
          rcases hx with hx | hx
          · exact hmm x hx
          · simp only [emitInsGaps, List.mem_map, List.mem_range] at hx
            obtain ⟨j, _, hx⟩ := hx
            subst hx; simp
      · exact ih _ _ hmm e he
    · exact hacc e he

/-- `calculateScore` rewrites only the score fields, never the edits (or
strand, offsets, trims). -/
theorem calculateScore_edits (h : GenomeHit) (rd : Read) (prob : Int → Int → ℚ)
    (sc : Scoring) (maxIntronLen : Nat) :
    (calculateScore h rd prob sc maxIntronLen).edits = h.edits := by
  unfold calculateScore
  split <;> rfl

/-! ### Claim C10: known splices bypass the gates and penalties of `calculateScore` -/

theorem mem_keepThroughLastGap {e : Edit} {l : List Edit} (he : e ∈ keepThroughLastGap l) :
    e ∈ l := by
  unfold keepThroughLastGap at he
  split at he
  · cases he
  · exact (List.take_sublist _ _).subset he

set_option maxHeartbeats 2000000 in
set_option maxRecDepth 4000 in
theorem combineWith_knownSpl_part2 (h o : GenomeHit) (rd : Read) (ref : BitPairReference)
    (sp : SpliceParams) (sc : Scoring) (minsc : Int)
    (minIntronLen maxIntronLen canMal noncanMal : Nat)
    (ss : Option SpliceSite) (ns so : Bool) (h' : GenomeHit)
    (hh : ∀ e ∈ h.edits, e.kind ≠ EditKind.spl)
    (ho : ∀ e ∈ o.edits, e.kind ≠ EditKind.spl)
    (hc : combineWith h o rd ref sp sc minsc minIntronLen maxIntronLen canMal noncanMal
        ss ns so = some h') :
    ∀ e ∈ h'.edits, e.kind = EditKind.spl → e.knownSpl = ss.isSome := by
  delta combineWith at hc
  by_cases hso : so = true
  · rw [if_pos hso] at hc; cases hc
  rw [if_neg hso] at hc
  rcases hgr : getRightWithScore h rd sc with ⟨trd, tlen, ttoff, tsc⟩
  rcases hgl : getLeftWithScore o rd sc with ⟨ord, olen, otoff, osc⟩
  simp only [hgr, hgl] at hc
  by_cases h1 : tlen ≠ 0 ∧ olen ≠ 0 ∧ trd + tlen ≥ ord + olen
  · rw [if_pos h1] at hc; cases hc
  rw [if_neg h1] at hc
  by_cases h2 : ttoff + (ord - trd + olen) > ref.approxLen h.tidx
  · rw [if_pos h2] at hc; cases hc
  rw [if_neg h2] at hc
  by_cases h3 : (ns && decide (otoff - ttoff ≠ ord - trd ∧
      otoff - ttoff > ord - trd ∧ otoff - ttoff - (ord - trd) ≥ minIntronLen)) = true
  · rw [if_pos h3] at hc; cases hc
  rw [if_neg h3] at hc
  by_cases h4 : (!decide (otoff - ttoff ≠ ord - trd ∧
        otoff - ttoff > ord - trd ∧ otoff - ttoff - (ord - trd) ≥ minIntronLen) &&
      !decide (otoff - ttoff ≠ ord - trd ∧ ¬otoff - ttoff > ord - trd) &&
      !decide (otoff - ttoff ≠ ord - trd ∧
        otoff - ttoff > ord - trd ∧ otoff - ttoff - (ord - trd) < minIntronLen) &&
      decide (trd + tlen = ord)) = true
  · rw [if_pos h4, Option.some.injEq] at hc
    subst hc
    intro e he hk
    rw [calculateScore_edits] at he
    simp only [List.mem_append, List.mem_map] at he
    rcases he with he | ⟨e0, he0, hee⟩
    · exact absurd hk (hh e he)
    · exfalso
      apply ho e0 he0
      have hkk : e.kind = e0.kind := by rw [← hee]
      rw [← hkk]
      exact hk
  · rw [if_neg h4] at hc
    rw [Option.map_eq_some'] at hc
    obtain ⟨dst, hX, hF⟩ := hc
    subst hF
    intro e he hk
    simp only [calculateScore_edits] at he
    by_cases hid : (decide (otoff - ttoff ≠ ord - trd ∧ ¬otoff - ttoff > ord - trd) ||
        decide (otoff - ttoff ≠ ord - trd ∧
          otoff - ttoff > ord - trd ∧ otoff - ttoff - (ord - trd) < minIntronLen)) = true
    · rw [if_pos hid] at he
      have hmem := List.mem_map_of_mem Edit.kindKnown he
      rw [leftAlign_kindKnown] at hmem
      obtain ⟨e2, he2, hkk⟩ := List.mem_map.mp hmem
      have hks : e2.kind = EditKind.spl := by
        have : e2.kind = e.kind := congrArg Prod.fst hkk
        rw [this, hk]
      have hkn : e2.knownSpl = e.knownSpl := congrArg Prod.snd hkk
      rw [← hkn]
      simp only [List.mem_append] at he2
      rcases he2 with he2 | he2
      · by_cases hsp : decide (otoff - ttoff ≠ ord - trd ∧
            otoff - ttoff > ord - trd ∧ otoff - ttoff - (ord - trd) ≥ minIntronLen) = true
        · rw [if_pos hsp] at he2
          simp only [List.mem_append] at he2
          rcases he2 with he2 | he2
          · exact absurd hks (hh e2 (mem_keepThroughLastGap he2))
          · exact emitSpliced_spl_flag _ _ _ _ _ _ _ _ _ _ _ e2 he2 hks
        · rw [if_neg hsp] at he2
          simp only [List.mem_append] at he2
          rcases he2 with he2 | he2
          · exact absurd hks (hh e2 (mem_keepThroughLastGap he2))
          · exact absurd hks (emitSimple_no_spl _ _ _ _ _ _ _ _ _ _ _ _ _ _ _ _ _
              (by intro x hx; cases hx) e2 he2)
      · obtain ⟨e0, he0, hee⟩ := List.mem_map.mp he2
        exfalso
        apply ho e0 (List.drop_subset _ _ he0)
        have : e0.kind = e2.kind := by rw [← hee]
        rw [this]
        exact hks
    · rw [if_neg hid] at he
      have he2 : e ∈ _ := he
      simp only [List.mem_append] at he2
      rcases he2 with he2 | he2
      · by_cases hsp : decide (otoff - ttoff ≠ ord - trd ∧
            otoff - ttoff > ord - trd ∧ otoff - ttoff - (ord - trd) ≥ minIntronLen) = true
        · rw [if_pos hsp] at he2
          simp only [List.mem_append] at he2
          rcases he2 with he2 | he2
          · exact absurd hk (hh e (mem_keepThroughLastGap he2))
          · exact emitSpliced_spl_flag _ _ _ _ _ _ _ _ _ _ _ e he2 hk
        · rw [if_neg hsp] at he2
          simp only [List.mem_append] at he2
          rcases he2 with he2 | he2
          · exact absurd hk (hh e (mem_keepThroughLastGap he2))
          · exact absurd hk (emitSimple_no_spl _ _ _ _ _ _ _ _ _ _ _ _ _ _ _ _ _
              (by intro x hx; cases hx) e he2)
      · obtain ⟨e0, he0, hee⟩ := List.mem_map.mp he2
        exfalso
        apply ho e0 (List.drop_subset _ _ he0)
        have : e0.kind = e.kind := by rw [← hee]
        rw [this]
        exact hk

-- C10 witness fixtures
def rdC10 : Read :=
  { patFw := fun i => if i < 10 then 0 else 1, patRc := fun _ => 0,
    qual := fun _ => 63, qualRev := fun _ => 63, len := 20 }

def refC10 : BitPairReference :=
  { getBase := fun _ p =>
      if p < 10 then 0 else if p = 10 then 2 else if p = 11 then 3
      else if p = 109 then 2 else if p < 110 then 0 else 1,
    approxLen := fun _ => 1000, numRefs := 1 }

def spC10 : SpliceParams :=
  { donorExonicLen := 1, donorIntronicLen := 2, acceptorExonicLen := 1,
    acceptorIntronicLen := 2, intronicLen := 2, prob := fun _ _ => 0 }

def scC10 : Scoring :=
  { score := fun _ _ _ => -6, mmpMax := 6, canSpl := 2, noncanSpl := 10,
    canSplLen := fun _ => 2, noncanSplLen := fun _ => 10,
    readGapOpen := 5, readGapExtend := 3, refGapOpen := 5, refGapExtend := 3,
    conflictSpl := 1000000, matchBonus := 2,
    maxReadGaps := fun _ _ => 0, maxRefGaps := fun _ _ => 0 }

def hC10 : GenomeHit :=
  { fw := true, rdoff := 0, len := 10, tidx := 0, toff := 0 }

def oC10 : GenomeHit :=
  { fw := true, rdoff := 10, len := 10, tidx := 0, toff := 110 }

def hOutC10 : GenomeHit :=
  { fw := true, rdoff := 0, len := 20, trim5 := 0, trim3 := 0, tidx := 0, toff := 0,
    edits := [{ pos := 10, kind := EditKind.spl, chr := 0, qchr := 0, splLen := 100,
                splDir := SpliceDir.fwd, knownSpl := true, donorSeq := 11, acceptorSeq := 9 }],
    score := 40, splicescore := 0, hitcount := 1 }

/-- **C10.** Splice edits carrying the known-splice flag bypass every splice
gate and penalty of `calculateScore` (the edit walk applies only the sense
bookkeeping, leaving score, splice count and splice score unchanged — in
particular a known splice can never yield the `-1000` sentinel); and
`combineWith` sets that flag on the splice edits it emits exactly when it was
given a splice site from the splice-site DB. -/
theorem knownSpl_bypasses_gates_and_penalty :
    (∀ (h : GenomeHit) (qual : Nat → Nat) (prob : Int → Int → ℚ) (sc : Scoring)
        (maxIntronLen rdlen : Nat) (e : Edit) (rest prevs : List Edit) (st : CalcState),
        e.kind = EditKind.spl → e.knownSpl = true →
        calcStep h qual prob sc maxIntronLen rdlen e rest prevs st =
          some (calcSpliceSense e st) ∧
        (calcSpliceSense e st).score = st.score ∧
        (calcSpliceSense e st).numsplices = st.numsplices ∧
        (calcSpliceSense e st).splicescore = st.splicescore) ∧
    (∀ (h o : GenomeHit) (rd : Read) (ref : BitPairReference) (sp : SpliceParams)
        (sc : Scoring) (minsc : Int) (minIntronLen maxIntronLen canMal noncanMal : Nat)
        (ss : Option SpliceSite) (ns so : Bool) (h' : GenomeHit),
        (∀ e ∈ h.edits, e.kind ≠ EditKind.spl) →
        (∀ e ∈ o.edits, e.kind ≠ EditKind.spl) →
        combineWith h o rd ref sp sc minsc minIntronLen maxIntronLen canMal noncanMal
          ss ns so = some h' →
        ∀ e ∈ h'.edits, e.kind = EditKind.spl → e.knownSpl = ss.isSome) := by
  constructor
  · intro h qual prob sc mil rdlen e rest prevs st hk hkn
    refine ⟨?_, calcSpliceSense_score e st, calcSpliceSense_numsplices e st,
      calcSpliceSense_splicescore e st⟩
    unfold calcStep
    rw [hk]
    simp [hkn]
  · exact combineWith_knownSpl_part2

/-- Witness for C10: a concrete known-site combine of two splice-free partial
hits succeeds, emits a known splice of length 100, and that splice carries the
flag. -/
theorem knownSpl_bypasses_gates_and_penalty_witness :
    (calcStep hC10 (fun _ => 63) (fun _ _ => 0) scC10 1000 20
        { pos := 4, kind := EditKind.spl, splLen := 100, splDir := SpliceDir.fwd,
          knownSpl := true } [] [] { toffBase := 0 } =
      some (calcSpliceSense
        { pos := 4, kind := EditKind.spl, splLen := 100, splDir := SpliceDir.fwd,
          knownSpl := true } { toffBase := 0 })) ∧
    combineWith hC10 oC10 rdC10 refC10 spC10 scC10 (-100) 20 1000 7 14
        (some { left := 9 }) false false = some hOutC10 ∧
    (∀ e ∈ hOutC10.edits, e.kind = EditKind.spl →
      e.knownSpl = (some { left := 9 } : Option SpliceSite).isSome) ∧
    (hOutC10.edits.getD 0 default).knownSpl = true := by
  have hA := knownSpl_bypasses_gates_and_penalty.1 hC10 (fun _ => 63) (fun _ _ => 0) scC10
    1000 20
    { pos := 4, kind := EditKind.spl, splLen := 100, splDir := SpliceDir.fwd,
      knownSpl := true }
    [] [] { toffBase := 0 } rfl rfl
  have hcomb : combineWith hC10 oC10 rdC10 refC10 spC10 scC10 (-100) 20 1000 7 14
      (some { left := 9 }) false false = some hOutC10 := by decide
  have hB := knownSpl_bypasses_gates_and_penalty.2 hC10 oC10 rdC10 refC10 spC10 scC10
    (-100) 20 1000 7 14 (some { left := 9 }) false false hOutC10
    (by intro e he; cases he) (by intro e he; cases he) hcomb
  exact ⟨hA.1, hcomb, hB, by decide⟩

/-! ### partialSearch (hi_aligner.h lines 3805-3983) and its driver `nextBWT`
(lines 2549-2571)

The FM index (`Ebwt`) is an external collaborator, modelled by abstract
functions: `ftabLoHi` looks up the first `ftabChars` bases, `mapLF` extends
the SA range at a row (`tloc`/`bloc` each stand for their row, so the
`bloc.valid()` path maps top and bot separately), `mapLF1` is the
single-row extension returning `OFF_MASK` on a miss.  Per `HIER_INIT_LOCS`
(lines 3053-3061), `bloc` is valid exactly when `bot - top ≠ 1`. -/

structure FmIndex where
  ftabChars : Nat
  ftabLoHi : (Nat → Nat) → Nat → Nat × Nat
  mapLF : Nat → Nat → Nat
  mapLF1 : Nat → Nat → Nat

/-- `CANDIDATE_HIT` / `PSEUDOGENE_HIT` / `ANCHOR_HIT` (lines 104-108). -/
inductive HitType
  | candidate
  | pseudogene
  | anchor
deriving DecidableEq, Repr

/-- `BWTHit` (lines 113-199): one partial hit's SA range and read window;
`coords`/`anchor_examined` are downstream bookkeeping the search never
reads and are dropped. -/
structure BWTHit where
  top : Nat
  bot : Nat
  fw : Bool
  bwoff : Nat
  len : Nat
  hitType : HitType := HitType.candidate
deriving DecidableEq, Repr

instance : Inhabited BWTHit :=
  ⟨{ top := 0, bot := 0, fw := true, bwoff := 0, len := 0 }⟩

/-- `ReadBWTHit` (lines 203-372). -/
structure ReadBWTHit where
  fw : Bool
  len : Nat
  cur : Nat
  done : Bool
  numPartialSearch : Nat
  numUniqueSearch : Nat
  partialHits : List BWTHit
deriving DecidableEq, Repr

/-- Running state of `partialSearch`'s while-loop (lines 3886-3958):
`dep`, `top`, `bot`, `same_range`, `similar_range`, the mutable copies
`pseudogeneStop_`/`anchorStop_` (`psOn`/`asOn`), the output flags
`pseudogeneStop`/`anchorStop` (`psStop`/`asStop`), and the
`hit._numUniqueSearch++` increments performed inside the loop. -/
structure PSState where
  dep : Nat
  top : Nat
  bot : Nat
  sameRange : Nat := 0
  similarRange : Nat := 0
  psOn : Bool
  asOn : Bool
  psStop : Bool := false
  asStop : Bool := false
  uniqAdd : Nat := 0
deriving DecidableEq, Repr

/-- The SA-range extension of one loop iteration (lines 3891-3905):
`(topTemp, botTemp)` from the next base. -/
def psTopBot (ebwt : FmIndex) (seq : Nat → Nat) (len : Nat) (st : PSState) : Nat × Nat :=
  let c := seq (len - st.dep - 1)
  if c > 3 then (0, 0)
  else if st.bot - st.top ≠ 1 then (ebwt.mapLF st.top c, ebwt.mapLF st.bot c)
  else
    let tt := ebwt.mapLF1 st.top c
    if tt = offMask then (0, 0) else (tt, tt + 1)

/-- The `similar_range`/`pseudogeneStop_` update (lines 3916-3923). -/
def psBookkeepPS (st : PSState) (topTemp botTemp : Nat) : PSState :=
  if st.psOn = true then
    if botTemp - topTemp ≠ 1 then
      if botTemp - topTemp + 2 ≥ st.bot - st.top then
        { st with similarRange := st.similarRange + 1 }
      else if botTemp - topTemp + 4 < st.bot - st.top then
        { st with similarRange := 0 }
      else st
    else { st with psOn := false }
  else st

/-- The `same_range`/`anchorStop_` update (lines 3926-3941). -/
def psBookkeepAS (offset minK : Nat) (st : PSState) (topTemp botTemp : Nat) : PSState :=
  if st.asOn = true then
    let st : PSState :=
      if botTemp - topTemp ≠ 1 ∧ st.bot - st.top = botTemp - topTemp then
        let st : PSState := { st with sameRange := st.sameRange + 1 }
        if st.sameRange ≥ 5 then { st with asOn := false } else st
      else { st with sameRange := 0 }
    if st.dep - offset ≥ minK + 8 ∧ botTemp - topTemp ≥ 4 then
      { st with asOn := false }
    else st
  else st

/-- Both bookkeeping updates; they touch only the heuristic fields. -/
def psBookkeep (offset minK : Nat) (st : PSState) (topTemp botTemp : Nat) : PSState :=
  psBookkeepAS offset minK (psBookkeepPS st topTemp botTemp) topTemp botTemp

/-- One iteration of the while-loop (lines 3890-3957), entered with
`dep < len`.  `inl` is a `break` with the loop's final state, `inr`
continues. -/
def psIter (ebwt : FmIndex) (seq : Nat → Nat) (len offset minK : Nat)
    (st : PSState) : PSState ⊕ PSState :=
  let topTemp := (psTopBot ebwt seq len st).1
  let botTemp := (psTopBot ebwt seq len st).2
  if botTemp ≤ topTemp then Sum.inl st
  else
    -- pseudogene stop (lines 3909-3915)
    if st.psOn = true ∧ botTemp - topTemp < st.bot - st.top ∧ st.bot - st.top ≤ 5 ∧
        st.dep - offset ≥ minK + 6 ∧ st.similarRange ≥ 5 then
      Sum.inl { st with psStop := true, uniqAdd := st.uniqAdd + 1 }
    else
      let st2 := psBookkeep offset minK st topTemp botTemp
      let st3 : PSState := { st2 with top := topTemp, bot := botTemp, dep := st2.dep + 1 }
      -- anchor stop (lines 3947-3953), after `dep++`
      if st3.asOn && decide (st3.dep - offset ≥ minK + 12) && decide (st3.bot - st3.top = 1) then
        Sum.inl { st3 with asStop := true, uniqAdd := st3.uniqAdd + 1 }
      else Sum.inr st3

/-- The while-loop of `partialSearch`; `fuel` bounds the remaining
iterations (`len - dep` suffices, each iteration increments `dep`). -/
def psLoop (ebwt : FmIndex) (seq : Nat → Nat) (len offset minK : Nat) :
    Nat → PSState → PSState
  | 0, st => st
  | fuel + 1, st =>
    if st.dep < len then
      match psIter ebwt seq len offset minK st with
      | Sum.inl r => r
      | Sum.inr st' => psLoop ebwt seq len offset minK fuel st'
    else st

/-- `HI_Aligner::partialSearch` (lines 3805-3983).  `seq` is the strand's
base string (`fw ? patFw : patRc`); `minK` is `_minK`; `psIn`/`asIn` are
the in-values of the `pseudogeneStop`/`anchorStop` reference parameters,
and the returned Booleans their out-values; the last component is the
returned `nelt`.  The unused `mineMax`/`mineFw`/`mineRc`/`rnd` parameters
are dropped. -/
def partialSearch (ebwt : FmIndex) (seq : Nat → Nat) (minK : Nat)
    (hit : ReadBWTHit) (psIn asIn : Bool) : ReadBWTHit × Bool × Bool × Nat :=
  let len := hit.len
  let hit := { hit with numPartialSearch := hit.numPartialSearch + 1 }
  let offset := hit.cur
  let dep := offset
  let left := len - dep
  if left < ebwt.ftabChars then
    let cur := len
    let ph : BWTHit := { top := offMask, bot := offMask, fw := hit.fw, bwoff := offset,
                         len := cur - offset }
    ({ hit with cur := cur, partialHits := hit.partialHits ++ [ph], done := true },
     false, false, 0)
  else
    match (List.range ebwt.ftabChars).find? (fun i => decide (seq (len - dep - 1 - i) > 3)) with
    | some i =>
      let cur := hit.cur + (i + 1)
      let ph : BWTHit := { top := offMask, bot := offMask, fw := hit.fw, bwoff := offset,
                           len := cur - offset }
      ({ hit with cur := cur, partialHits := hit.partialHits ++ [ph],
                  done := hit.done || decide (len ≤ cur) }, false, false, 0)
    | none =>
      let tb := ebwt.ftabLoHi seq (len - dep - ebwt.ftabChars)
      let top := tb.1
      let bot := tb.2
      let dep := dep + ebwt.ftabChars
      if bot ≤ top then
        let cur := dep
        let ph : BWTHit := { top := offMask, bot := offMask, fw := hit.fw, bwoff := offset,
                             len := cur - offset }
        ({ hit with cur := cur, partialHits := hit.partialHits ++ [ph],
                    done := hit.done || decide (len ≤ cur) }, false, false, 0)
      else
        let st := psLoop ebwt seq len offset minK (len - dep)
          { dep := dep, top := top, bot := bot, psOn := psIn, asOn := asIn }
        if st.bot > st.top then
          let hitType :=
            if st.asStop then HitType.anchor
            else if st.psStop then HitType.pseudogene
            else HitType.candidate
          let ph : BWTHit := { top := st.top, bot := st.bot, fw := hit.fw, bwoff := offset,
                               len := st.dep - offset, hitType := hitType }
          let nelt := st.bot - st.top
          let cur := st.dep
          let uniq := hit.numUniqueSearch + st.uniqAdd +
            (if cur ≥ len ∧ hitType = HitType.candidate then 1 else 0)
          ({ hit with cur := cur, partialHits := hit.partialHits ++ [ph],
                      done := hit.done || decide (len ≤ cur), numUniqueSearch := uniq },
           st.psStop, st.asStop, nelt)
        else
          ({ hit with numUniqueSearch := hit.numUniqueSearch + st.uniqAdd },
           st.psStop, st.asStop, 0)

/-- One round of `nextBWT`'s per-hit driver (lines 2549-2571): run
`partialSearch`; if the hit is done, stop; otherwise advance `_cur` by one
unless the search ended in a pseudogene stop, and mark the hit done on an
anchor stop. -/
def nextBWTStep (ebwt : FmIndex) (seq : Nat → Nat) (minK : Nat)
    (hit : ReadBWTHit) (psIn asIn : Bool) : ReadBWTHit :=
  let r := partialSearch ebwt seq minK hit psIn asIn
  let h' := r.1
  let ps := r.2.1
  let as' := r.2.2.1
  if h'.done then h'
  else
    let h' := if ¬ps ∧ h'.cur + 1 < h'.len then { h' with cur := h'.cur + 1 } else h'
    if as' then { h' with done := true } else h'

/-- The `ReadBWTHit` states reachable through `partialSearch` and the
search driver: a freshly initialized hit (`ReadBWTHit::init`, lines 221-232),
followed by any number of `nextBWT` rounds on a hit that is not done. -/
inductive RBReach (ebwt : FmIndex) (seq : Nat → Nat) (minK : Nat) : ReadBWTHit → Prop
  | init (fw : Bool) (len : Nat) : 0 < len →
      RBReach ebwt seq minK
        { fw := fw, len := len, cur := 0, done := false, numPartialSearch := 0,
          numUniqueSearch := 0, partialHits := [] }
  | step (hit : ReadBWTHit) (psIn asIn : Bool) : RBReach ebwt seq minK hit →
      hit.cur < hit.len → hit.done = false →
      RBReach ebwt seq minK (nextBWTStep ebwt seq minK hit psIn asIn)

/-! ### Claims C5 and C8: hit types and the tiling invariant of the partial search -/

/-- `psBookkeepPS` touches only the heuristic bookkeeping fields. -/
theorem psBookkeepPS_fields (st : PSState) (tT bT : Nat) :
    (psBookkeepPS st tT bT).dep = st.dep ∧
    (psBookkeepPS st tT bT).top = st.top ∧
    (psBookkeepPS st tT bT).bot = st.bot ∧
    (psBookkeepPS st tT bT).psStop = st.psStop ∧
    (psBookkeepPS st tT bT).asStop = st.asStop ∧
    (psBookkeepPS st tT bT).uniqAdd = st.uniqAdd := by
  unfold psBookkeepPS
  split_ifs <;> simp

/-- `psBookkeepAS` touches only the heuristic bookkeeping fields. -/
theorem psBookkeepAS_fields (offset minK : Nat) (st : PSState) (tT bT : Nat) :
    (psBookkeepAS offset minK st tT bT).dep = st.dep ∧
    (psBookkeepAS offset minK st tT bT).top = st.top ∧
    (psBookkeepAS offset minK st tT bT).bot = st.bot ∧
    (psBookkeepAS offset minK st tT bT).psStop = st.psStop ∧
    (psBookkeepAS offset minK st tT bT).asStop = st.asStop ∧
    (psBookkeepAS offset minK st tT bT).uniqAdd = st.uniqAdd := by
  unfold psBookkeepAS
  dsimp only
  split_ifs <;> simp

/-- `psBookkeep` touches only the heuristic bookkeeping fields. -/
theorem psBookkeep_fields (offset minK : Nat) (st : PSState) (tT bT : Nat) :
    (psBookkeep offset minK st tT bT).dep = st.dep ∧
    (psBookkeep offset minK st tT bT).top = st.top ∧
    (psBookkeep offset minK st tT bT).bot = st.bot ∧
    (psBookkeep offset minK st tT bT).psStop = st.psStop ∧
    (psBookkeep offset minK st tT bT).asStop = st.asStop ∧
    (psBookkeep offset minK st tT bT).uniqAdd = st.uniqAdd := by
  have h1 := psBookkeepPS_fields st tT bT
  have h2 := psBookkeepAS_fields offset minK (psBookkeepPS st tT bT) tT bT
  unfold psBookkeep
  exact ⟨h2.1.trans h1.1, h2.2.1.trans h1.2.1, h2.2.2.1.trans h1.2.2.1,
    h2.2.2.2.1.trans h1.2.2.2.1, h2.2.2.2.2.1.trans h1.2.2.2.2.1,
    h2.2.2.2.2.2.trans h1.2.2.2.2.2⟩

/-- Case analysis of one loop iteration: a break keeps the stop flags sound
(no stop, a pseudogene stop at its guard conditions, or an anchor stop at
its guard conditions), and a continuation keeps both flags clear and
advances `dep` by one, with a nonempty SA range. -/
theorem psIter_spec (ebwt : FmIndex) (seq : Nat → Nat) (len offset minK : Nat) (st : PSState)
    (h1 : st.psStop = false) (h2 : st.asStop = false) :
    (∀ r, psIter ebwt seq len offset minK st = Sum.inl r →
      (r.psStop = false ∧ r.asStop = false ∧ r.dep = st.dep ∧ r.top = st.top ∧
        r.bot = st.bot) ∨
      (r.psStop = true ∧ r.asStop = false ∧ r.dep = st.dep ∧ r.top = st.top ∧
        r.bot = st.bot ∧ 1 ≤ r.bot - r.top ∧ r.bot - r.top ≤ 5 ∧
        minK + 6 ≤ r.dep - offset) ∨
      (r.psStop = false ∧ r.asStop = true ∧ r.dep = st.dep + 1 ∧ r.bot - r.top = 1 ∧
        minK + 12 ≤ r.dep - offset)) ∧
    (∀ st', psIter ebwt seq len offset minK st = Sum.inr st' →
      st'.psStop = false ∧ st'.asStop = false ∧ st'.dep = st.dep + 1 ∧
      1 ≤ st'.bot - st'.top) := by
  have hbk := psBookkeep_fields offset minK st (psTopBot ebwt seq len st).1
    (psTopBot ebwt seq len st).2
  unfold psIter
  constructor
  · intro r hr
    by_cases hb1 : (psTopBot ebwt seq len st).2 ≤ (psTopBot ebwt seq len st).1
    · rw [if_pos hb1] at hr
      cases hr
      exact Or.inl ⟨h1, h2, rfl, rfl, rfl⟩
    rw [if_neg hb1] at hr
    by_cases hb2 : st.psOn = true ∧
        (psTopBot ebwt seq len st).2 - (psTopBot ebwt seq len st).1 < st.bot - st.top ∧
        st.bot - st.top ≤ 5 ∧ st.dep - offset ≥ minK + 6 ∧ st.similarRange ≥ 5
    · rw [if_pos hb2] at hr
      cases hr
      have h5 : 1 ≤ st.bot - st.top := by omega
      exact Or.inr (Or.inl ⟨rfl, h2, rfl, rfl, rfl, h5, hb2.2.2.1, hb2.2.2.2.1⟩)
    rw [if_neg hb2] at hr
    dsimp only at hr
    by_cases hb3 : ((psBookkeep offset minK st (psTopBot ebwt seq len st).1
          (psTopBot ebwt seq len st).2).asOn &&
        decide ((psBookkeep offset minK st (psTopBot ebwt seq len st).1
          (psTopBot ebwt seq len st).2).dep + 1 - offset ≥ minK + 12) &&
        decide ((psTopBot ebwt seq len st).2 - (psTopBot ebwt seq len st).1 = 1)) = true
    · rw [if_pos hb3] at hr
      cases hr
      simp only [Bool.and_eq_true, decide_eq_true_eq] at hb3
      refine Or.inr (Or.inr ⟨by simp [hbk.2.2.2.1, h1], rfl, by simp [hbk.1], ?_, ?_⟩)
      · exact hb3.2
      · exact hb3.1.2
    · rw [if_neg hb3] at hr
      cases hr
  · intro st' hs
    by_cases hb1 : (psTopBot ebwt seq len st).2 ≤ (psTopBot ebwt seq len st).1
    · rw [if_pos hb1] at hs; cases hs
    rw [if_neg hb1] at hs
    by_cases hb2 : st.psOn = true ∧
        (psTopBot ebwt seq len st).2 - (psTopBot ebwt seq len st).1 < st.bot - st.top ∧
        st.bot - st.top ≤ 5 ∧ st.dep - offset ≥ minK + 6 ∧ st.similarRange ≥ 5
    · rw [if_pos hb2] at hs; cases hs
    rw [if_neg hb2] at hs
    dsimp only at hs
    by_cases hb3 : ((psBookkeep offset minK st (psTopBot ebwt seq len st).1
          (psTopBot ebwt seq len st).2).asOn &&
        decide ((psBookkeep offset minK st (psTopBot ebwt seq len st).1
          (psTopBot ebwt seq len st).2).dep + 1 - offset ≥ minK + 12) &&
        decide ((psTopBot ebwt seq len st).2 - (psTopBot ebwt seq len st).1 = 1)) = true
    · rw [if_pos hb3] at hs; cases hs
    · rw [if_neg hb3] at hs
      cases hs
      refine ⟨by simp [hbk.2.2.2.1, h1], by simp [hbk.2.2.2.2.1, h2], by simp [hbk.1], ?_⟩
      dsimp only
      omega

/-- Loop invariant of `psLoop`: `dep` grows monotonically and stays within
`len`, the SA range stays nonempty, and the stop flags are set only at their
guard conditions. -/
theorem psLoop_spec (ebwt : FmIndex) (seq : Nat → Nat) (len offset minK : Nat) :
    ∀ (fuel : Nat) (st : PSState), st.psStop = false → st.asStop = false →
      st.dep ≤ len → 1 ≤ st.bot - st.top →
      st.dep ≤ (psLoop ebwt seq len offset minK fuel st).dep ∧
      (psLoop ebwt seq len offset minK fuel st).dep ≤ len ∧
      1 ≤ (psLoop ebwt seq len offset minK fuel st).bot -
        (psLoop ebwt seq len offset minK fuel st).top ∧
      ((psLoop ebwt seq len offset minK fuel st).asStop = true →
        (psLoop ebwt seq len offset minK fuel st).psStop = false ∧
        (psLoop ebwt seq len offset minK fuel st).bot -
          (psLoop ebwt seq len offset minK fuel st).top = 1 ∧
        minK + 12 ≤ (psLoop ebwt seq len offset minK fuel st).dep - offset) ∧
      ((psLoop ebwt seq len offset minK fuel st).psStop = true →
        (psLoop ebwt seq len offset minK fuel st).asStop = false ∧
        1 ≤ (psLoop ebwt seq len offset minK fuel st).bot -
          (psLoop ebwt seq len offset minK fuel st).top ∧
        (psLoop ebwt seq len offset minK fuel st).bot -
          (psLoop ebwt seq len offset minK fuel st).top ≤ 5 ∧
        minK + 6 ≤ (psLoop ebwt seq len offset minK fuel st).dep - offset) := by
  intro fuel
  induction fuel with
  | zero =>
    intro st h1 h2 h3 h4
    simp only [psLoop]
    exact ⟨Nat.le_refl _, h3, h4, (by intro h; rw [h2] at h; cases h),
      (by intro h; rw [h1] at h; cases h)⟩
  | succ n ih =>
    intro st h1 h2 h3 h4
    by_cases hlt : st.dep < len
    · rcases hit : psIter ebwt seq len offset minK st with r | st'
      · have hspec := (psIter_spec ebwt seq len offset minK st h1 h2).1 r hit
        simp only [psLoop, if_pos hlt, hit]
        rcases hspec with ⟨hp, ha, hd, ht, hb⟩ | ⟨hp, ha, hd, ht, hb, hs1, hs2, hs3⟩ |
          ⟨hp, ha, hd, hb1, hb2⟩
        · exact ⟨by omega, by omega, (by rw [ht, hb]; exact h4),
            (by intro h; rw [ha] at h; cases h), (by intro h; rw [hp] at h; cases h)⟩
        · exact ⟨by omega, by omega, by omega,
            (by intro h; rw [ha] at h; cases h), fun _ => ⟨ha, hs1, hs2, hs3⟩⟩
        · exact ⟨by omega, by omega, by omega, fun _ => ⟨hp, hb1, hb2⟩,
            (by intro h; rw [hp] at h; cases h)⟩
      · have hspec := (psIter_spec ebwt seq len offset minK st h1 h2).2 st' hit
        obtain ⟨hp, ha, hd, hb⟩ := hspec
        have := ih st' hp ha (by omega) hb
        simp only [psLoop, if_pos hlt, hit]
        exact ⟨by omega, this.2.1, this.2.2.1, this.2.2.2.1, this.2.2.2.2⟩
    · simp only [psLoop, if_neg hlt]
      exact ⟨Nat.le_refl _, h3, h4, (by intro h; rw [h2] at h; cases h),
        (by intro h; rw [h1] at h; cases h)⟩

/-- Effect of one `partialSearch` call on a hit with `cur < len` (the
source's entry assertion, line 3832): exactly one partial hit is appended,
spanning the read window from the old `cur` to the new `cur`, within the
read; and the hit's type is `ANCHOR_HIT`/`PSEUDOGENE_HIT` only under the
respective stop guards. -/
theorem partialSearch_spec (ebwt : FmIndex) (seq : Nat → Nat) (minK : Nat)
    (hit : ReadBWTHit) (psIn asIn : Bool) (hcur : hit.cur < hit.len) :
    ∃ ph : BWTHit,
      (partialSearch ebwt seq minK hit psIn asIn).1.partialHits =
        hit.partialHits ++ [ph] ∧
      (partialSearch ebwt seq minK hit psIn asIn).1.len = hit.len ∧
      (partialSearch ebwt seq minK hit psIn asIn).1.cur = ph.bwoff + ph.len ∧
      ph.bwoff = hit.cur ∧
      ph.bwoff + ph.len ≤ hit.len ∧
      (ph.hitType = HitType.anchor →
        (partialSearch ebwt seq minK hit psIn asIn).2.2.1 = true ∧
        ph.bot - ph.top = 1 ∧ minK + 12 ≤ ph.len) ∧
      (ph.hitType = HitType.pseudogene →
        (partialSearch ebwt seq minK hit psIn asIn).2.1 = true ∧
        1 ≤ ph.bot - ph.top ∧ ph.bot - ph.top ≤ 5 ∧ minK + 6 ≤ ph.len) := by
  unfold partialSearch
  dsimp only
  by_cases c1 : hit.len - hit.cur < ebwt.ftabChars
  · rw [if_pos c1]
    exact ⟨_, rfl, rfl, by dsimp only; omega, rfl, by dsimp only; omega,
      (by intro h; cases h), (by intro h; cases h)⟩
  rw [if_neg c1]
  cases hfind : (List.range ebwt.ftabChars).find?
      (fun i => decide (seq (hit.len - hit.cur - 1 - i) > 3)) with
  | some i =>
    have hi : i < ebwt.ftabChars :=
      List.mem_range.mp (List.mem_of_find?_eq_some hfind)
    exact ⟨_, rfl, rfl, by dsimp only; omega, rfl, by dsimp only; omega,
      (by intro h; cases h), (by intro h; cases h)⟩
  | none =>
    by_cases c2 : (ebwt.ftabLoHi seq (hit.len - hit.cur - ebwt.ftabChars)).2 ≤
        (ebwt.ftabLoHi seq (hit.len - hit.cur - ebwt.ftabChars)).1
    · rw [if_pos c2]
      exact ⟨_, rfl, rfl, by dsimp only; omega, rfl, by dsimp only; omega,
        (by intro h; cases h), (by intro h; cases h)⟩
    rw [if_neg c2]
    have hst := psLoop_spec ebwt seq hit.len hit.cur minK
      (hit.len - (hit.cur + ebwt.ftabChars))
      { dep := hit.cur + ebwt.ftabChars,
        top := (ebwt.ftabLoHi seq (hit.len - hit.cur - ebwt.ftabChars)).1,
        bot := (ebwt.ftabLoHi seq (hit.len - hit.cur - ebwt.ftabChars)).2,
        psOn := psIn, asOn := asIn }
      rfl rfl (by dsimp only; omega) (by dsimp only; omega)
    obtain ⟨hm, hl, hne, hanch, hpseu⟩ := hst
    dsimp only at hm
    by_cases c3 : (psLoop ebwt seq hit.len hit.cur minK (hit.len - (hit.cur + ebwt.ftabChars))
        { dep := hit.cur + ebwt.ftabChars,
          top := (ebwt.ftabLoHi seq (hit.len - hit.cur - ebwt.ftabChars)).1,
          bot := (ebwt.ftabLoHi seq (hit.len - hit.cur - ebwt.ftabChars)).2,
          psOn := psIn, asOn := asIn }).top <
      (psLoop ebwt seq hit.len hit.cur minK (hit.len - (hit.cur + ebwt.ftabChars))
        { dep := hit.cur + ebwt.ftabChars,
          top := (ebwt.ftabLoHi seq (hit.len - hit.cur - ebwt.ftabChars)).1,
          bot := (ebwt.ftabLoHi seq (hit.len - hit.cur - ebwt.ftabChars)).2,
          psOn := psIn, asOn := asIn }).bot
    · rw [if_pos c3]
      refine ⟨_, rfl, rfl, by dsimp only; omega, rfl, by dsimp only; omega, ?_, ?_⟩
      · intro hty
        dsimp only at hty ⊢
        by_cases has : (psLoop ebwt seq hit.len hit.cur minK
            (hit.len - (hit.cur + ebwt.ftabChars))
            { dep := hit.cur + ebwt.ftabChars,
              top := (ebwt.ftabLoHi seq (hit.len - hit.cur - ebwt.ftabChars)).1,
              bot := (ebwt.ftabLoHi seq (hit.len - hit.cur - ebwt.ftabChars)).2,
              psOn := psIn, asOn := asIn }).asStop = true
        · obtain ⟨hp, he, hd⟩ := hanch has
          exact ⟨has, he, by omega⟩
        · rw [if_neg has] at hty
          split at hty <;> cases hty
      · intro hty
        dsimp only at hty ⊢
        by_cases has : (psLoop ebwt seq hit.len hit.cur minK
            (hit.len - (hit.cur + ebwt.ftabChars))
            { dep := hit.cur + ebwt.ftabChars,
              top := (ebwt.ftabLoHi seq (hit.len - hit.cur - ebwt.ftabChars)).1,
              bot := (ebwt.ftabLoHi seq (hit.len - hit.cur - ebwt.ftabChars)).2,
              psOn := psIn, asOn := asIn }).asStop = true
        · rw [if_pos has] at hty; cases hty
        · rw [if_neg has] at hty
          by_cases hps : (psLoop ebwt seq hit.len hit.cur minK
              (hit.len - (hit.cur + ebwt.ftabChars))
              { dep := hit.cur + ebwt.ftabChars,
                top := (ebwt.ftabLoHi seq (hit.len - hit.cur - ebwt.ftabChars)).1,
                bot := (ebwt.ftabLoHi seq (hit.len - hit.cur - ebwt.ftabChars)).2,
                psOn := psIn, asOn := asIn }).psStop = true
          · obtain ⟨ha, hb1, hb2, hd⟩ := hpseu hps
            exact ⟨hps, hb1, hb2, by omega⟩
          · rw [if_neg hps] at hty; cases hty
    · rw [if_neg c3]
      exact absurd (by omega) c3

/-- **C5.** Necessary conditions for the emitted hit types of
`partialSearch` (lines 3909-3915, 3947-3953, 3964-3967): the partial hit
appended by a call is typed `ANCHOR_HIT` only if the search ended in an
anchor stop, which requires an SA interval of size exactly 1 and a span of
at least `minK + 12`; it is typed `PSEUDOGENE_HIT` only if the search ended
in a pseudogene stop, which requires a nonempty SA interval of size at most
5 and a span of at least `minK + 6`; in every other case the hit is a
`CANDIDATE_HIT`.  (These conditions are not sufficient: the stop also
requires the respective heuristic to still be enabled, see
`anchor_conditions_not_sufficient`.) -/
theorem partialSearch_hit_types (ebwt : FmIndex) (seq : Nat → Nat) (minK : Nat)
    (hit : ReadBWTHit) (psIn asIn : Bool) (ph : BWTHit)
    (hcur : hit.cur < hit.len)
    (happ : (partialSearch ebwt seq minK hit psIn asIn).1.partialHits =
      hit.partialHits ++ [ph]) :
    (ph.hitType = HitType.anchor →
      (partialSearch ebwt seq minK hit psIn asIn).2.2.1 = true ∧
      ph.bot - ph.top = 1 ∧ minK + 12 ≤ ph.len) ∧
    (ph.hitType = HitType.pseudogene →
      (partialSearch ebwt seq minK hit psIn asIn).2.1 = true ∧
      1 ≤ ph.bot - ph.top ∧ ph.bot - ph.top ≤ 5 ∧ minK + 6 ≤ ph.len) := by
  obtain ⟨ph', h1, _, _, _, _, hA, hP⟩ :=
    partialSearch_spec ebwt seq minK hit psIn asIn hcur
  have h2 : ph' = ph := by
    have h3 := List.append_cancel_left (h1.symm.trans happ)
    simpa using h3
  subst h2
  exact ⟨hA, hP⟩

/-- Appending a hit whose window starts at or after the end of the previous
last hit preserves the chain ordering. -/
theorem pairwise_append_single (l : List BWTHit) (ph : BWTHit) (c : Nat)
    (hpw : ∀ i, i + 1 < l.length →
      (l.getD i default).bwoff + (l.getD i default).len ≤ (l.getD (i+1) default).bwoff)
    (hlast : ∀ x, l.getLast? = some x → x.bwoff + x.len ≤ c)
    (hb : c ≤ ph.bwoff) :
    ∀ i, i + 1 < (l ++ [ph]).length →
      ((l ++ [ph]).getD i default).bwoff + ((l ++ [ph]).getD i default).len ≤
        ((l ++ [ph]).getD (i+1) default).bwoff := by
  intro i hi
  simp only [List.length_append, List.length_singleton] at hi
  by_cases hilt : i + 1 < l.length
  · rw [List.getD_append _ _ _ _ (by omega), List.getD_append _ _ _ _ hilt]
    exact hpw i hilt
  · have hieq : i + 1 = l.length := by omega
    have hlt : i < l.length := by omega
    rw [List.getD_append _ _ _ _ hlt]
    have hright : (l ++ [ph]).getD (i+1) default = ph := by
      rw [List.getD_append_right _ _ _ _ (by omega), hieq, Nat.sub_self]
      rfl
    rw [hright]
    have hlast' : l.getLast? = some (l.getD i default) := by
      rw [List.getLast?_eq_getElem?, List.getD_eq_getElem l default hlt,
        ← hieq, Nat.add_sub_cancel]
      exact List.getElem?_eq_getElem hlt
    exact le_trans (hlast _ hlast') hb

/-- **C8 (amended).** In every `ReadBWTHit` state reachable through
`partialSearch` and the `nextBWT` driver, the partial hits cover disjoint
read windows in increasing order (`hit[i].bwoff + hit[i].len ≤
hit[i+1].bwoff`), ending at the cursor or one base before it (the driver
advances `_cur` past the last hit when the search did not end in a
pseudogene stop, lines 2565-2567), with the cursor within the read. -/
theorem rbreach_tiling (ebwt : FmIndex) (seq : Nat → Nat) (minK : Nat) (s : ReadBWTHit)
    (h : RBReach ebwt seq minK s) :
    s.cur ≤ s.len ∧
    (∀ i, i + 1 < s.partialHits.length →
      (s.partialHits.getD i default).bwoff + (s.partialHits.getD i default).len ≤
        (s.partialHits.getD (i + 1) default).bwoff) ∧
    (∀ ph, s.partialHits.getLast? = some ph →
      ph.bwoff + ph.len ≤ s.cur ∧ s.cur ≤ ph.bwoff + ph.len + 1) ∧
    (s.partialHits = [] → s.cur = 0) := by
  induction h with
  | init fw len hlen =>
    refine ⟨Nat.zero_le _, ?_, ?_, fun _ => rfl⟩
    · intro i hi
      simp at hi
    · intro ph hph
      simp at hph
  | step hit psIn asIn hreach hcur hdone ih =>
    obtain ⟨ph, e1, e2, e3, e4, e5, _, _⟩ :=
      partialSearch_spec ebwt seq minK hit psIn asIn hcur
    obtain ⟨ih1, ih2, ih3, ih4⟩ := ih
    have inv1 : (partialSearch ebwt seq minK hit psIn asIn).1.cur ≤
        (partialSearch ebwt seq minK hit psIn asIn).1.len ∧
        (∀ i, i + 1 < (partialSearch ebwt seq minK hit psIn asIn).1.partialHits.length →
          (((partialSearch ebwt seq minK hit psIn asIn).1.partialHits.getD i
              default).bwoff +
            ((partialSearch ebwt seq minK hit psIn asIn).1.partialHits.getD i
              default).len ≤
            ((partialSearch ebwt seq minK hit psIn asIn).1.partialHits.getD (i + 1)
              default).bwoff)) ∧
        (∀ x, (partialSearch ebwt seq minK hit psIn asIn).1.partialHits.getLast? =
            some x →
          x.bwoff + x.len ≤ (partialSearch ebwt seq minK hit psIn asIn).1.cur ∧
          x.bwoff + x.len = (partialSearch ebwt seq minK hit psIn asIn).1.cur) := by
      refine ⟨?_, ?_, ?_⟩
      · rw [e2, e3]; exact e5
      · rw [e1]
        refine pairwise_append_single _ _ hit.cur ih2 ?_ (by omega)
        intro x hx
        exact (ih3 x hx).1
      · intro x hx
        rw [e1] at hx
        simp only [List.getLast?_append, List.getLast?_singleton] at hx
        have hxp : x = ph := by
          cases hx
          rfl
        subst hxp
        rw [e3]
        exact ⟨Nat.le_refl _, rfl⟩
    unfold nextBWTStep
    dsimp only
    by_cases hd : (partialSearch ebwt seq minK hit psIn asIn).1.done = true
    · rw [if_pos hd]
      refine ⟨inv1.1, inv1.2.1, ?_, ?_⟩
      · intro x hx
        have := inv1.2.2 x hx
        omega
      · intro hemp
        rw [e1] at hemp
        simp at hemp
    · rw [if_neg hd]
      by_cases hadv : ¬(partialSearch ebwt seq minK hit psIn asIn).2.1 = true ∧
          (partialSearch ebwt seq minK hit psIn asIn).1.cur + 1 <
            (partialSearch ebwt seq minK hit psIn asIn).1.len
      · rw [if_pos hadv]
        by_cases has : (partialSearch ebwt seq minK hit psIn asIn).2.2.1 = true
        · rw [if_pos has]
          refine ⟨by dsimp only; omega, inv1.2.1, ?_, ?_⟩
          · intro x hx
            have := inv1.2.2 x hx
            dsimp only
            omega
          · intro hemp
            rw [e1] at hemp
            simp at hemp
        · rw [if_neg has]
          refine ⟨by dsimp only; omega, inv1.2.1, ?_, ?_⟩
          · intro x hx
            have := inv1.2.2 x hx
            dsimp only
            omega
          · intro hemp
            rw [e1] at hemp
            simp at hemp
      · rw [if_neg hadv]
        by_cases has : (partialSearch ebwt seq minK hit psIn asIn).2.2.1 = true
        · rw [if_pos has]
          refine ⟨inv1.1, inv1.2.1, ?_, ?_⟩
          · intro x hx
            have := inv1.2.2 x hx
            dsimp only
            omega
          · intro hemp
            rw [e1] at hemp
            simp at hemp
        · rw [if_neg has]
          refine ⟨inv1.1, inv1.2.1, ?_, ?_⟩
          · intro x hx
            have := inv1.2.2 x hx
            omega
          · intro hemp
            rw [e1] at hemp
            simp at hemp

/-- A 20-base all-`A` read state for the search fixtures. -/
def rbC5 : ReadBWTHit :=
  { fw := true, len := 20, cur := 0, done := false, numPartialSearch := 0,
    numUniqueSearch := 0, partialHits := [] }

/-- An index on which the SA interval keeps width 6 for five steps (so the
anchor heuristic is disabled by `same_range`) and then narrows to width 1. -/
def ebwtC5c : FmIndex :=
  { ftabChars := 2, ftabLoHi := fun _ _ => (0, 6),
    mapLF := fun r _ =>
      if r ≤ 4 then r + 1 else if r = 5 then 20
      else if r ≤ 10 then r + 1 else if r = 11 then 21 else r,
    mapLF1 := fun r _ => r }

/-- The ANCHOR_HIT conditions are not sufficient: on `ebwtC5c` the search
reaches an SA interval of size exactly 1 and spans the whole 20-base read
(`≥ minK + 12 = 14`), yet the emitted hit is a `CANDIDATE_HIT` and the
`anchorStop` out-flag stays false, because five equal-width steps disabled
the anchor heuristic (`same_range ≥ 5`, lines 3934-3937). -/
theorem anchor_conditions_not_sufficient :
    (partialSearch ebwtC5c (fun _ => 0) 2 rbC5 false true).1.partialHits =
      rbC5.partialHits ++
        [{ top := 20, bot := 21, fw := true, bwoff := 0, len := 20,
           hitType := HitType.candidate }] ∧
    (partialSearch ebwtC5c (fun _ => 0) 2 rbC5 false true).2.2.1 = false := by
  constructor
  · decide
  · decide

/-- An index on which the SA interval narrows to width 1 immediately, so the
anchor stop fires at span `minK + 12`. -/
def ebwtC5w : FmIndex :=
  { ftabChars := 2, ftabLoHi := fun _ _ => (0, 3),
    mapLF := fun r _ =>
      if r = 0 then 10 else if r = 3 then 12
      else if r = 10 then 20 else if r = 12 then 21 else r,
    mapLF1 := fun r _ => r }

/-- The anchor hit emitted on `ebwtC5w`. -/
def phC5w : BWTHit :=
  { top := 20, bot := 21, fw := true, bwoff := 0, len := 14,
    hitType := HitType.anchor }

/-- Witness for C5: a concrete anchor-stopped search, at which the necessary
conditions of `partialSearch_hit_types` hold. -/
theorem partialSearch_hit_types_witness :
    rbC5.cur < rbC5.len ∧
    (partialSearch ebwtC5w (fun _ => 0) 2 rbC5 false true).1.partialHits =
      rbC5.partialHits ++ [phC5w] ∧
    ((phC5w.hitType = HitType.anchor →
      (partialSearch ebwtC5w (fun _ => 0) 2 rbC5 false true).2.2.1 = true ∧
      phC5w.bot - phC5w.top = 1 ∧ 2 + 12 ≤ phC5w.len) ∧
     (phC5w.hitType = HitType.pseudogene →
      (partialSearch ebwtC5w (fun _ => 0) 2 rbC5 false true).2.1 = true ∧
      1 ≤ phC5w.bot - phC5w.top ∧ phC5w.bot - phC5w.top ≤ 5 ∧
      2 + 6 ≤ phC5w.len)) :=
  ⟨by decide, by decide,
    partialSearch_hit_types ebwtC5w (fun _ => 0) 2 rbC5 false true phC5w
      (by decide) (by decide)⟩

/-- An index on which the SA interval collapses after six extension steps,
so each search round covers eight bases and stops mid-read. -/
def ebwtC8 : FmIndex :=
  { ftabChars := 2, ftabLoHi := fun _ _ => (0, 50),
    mapLF := fun r _ => if r = 56 then 0 else r + 1,
    mapLF1 := fun r _ => r }

/-- The state after two driver rounds on `ebwtC8`. -/
def sC8 : ReadBWTHit :=
  nextBWTStep ebwtC8 (fun _ => 0) 2
    (nextBWTStep ebwtC8 (fun _ => 0) 2 rbC5 false false) false false

/-- Consecutive partial hits do not abut exactly: after two rounds on
`ebwtC8` the first hit covers `[0, 8)` and the second starts at 9 — the
driver advanced `_cur` past base 8 between the rounds (lines 2565-2567),
leaving a one-base gap. -/
theorem tiling_exact_abutment_counterexample :
    RBReach ebwtC8 (fun _ => 0) 2 sC8 ∧
    1 < sC8.partialHits.length ∧
    (sC8.partialHits.getD 0 default).bwoff + (sC8.partialHits.getD 0 default).len + 1 =
      (sC8.partialHits.getD 1 default).bwoff := by
  refine ⟨?_, by decide, by decide⟩
  have h1 : RBReach ebwtC8 (fun _ => 0) 2 rbC5 := RBReach.init true 20 (by decide)
  have h2 := RBReach.step rbC5 false false h1 (by decide) (by decide)
  exact RBReach.step (nextBWTStep ebwtC8 (fun _ => 0) 2 rbC5 false false) false false h2
    (by decide) (by decide)

/-- Witness for C8: the invariant instantiated at the concrete two-round
state `sC8`. -/
theorem rbreach_tiling_witness :
    RBReach ebwtC8 (fun _ => 0) 2 sC8 ∧
    (sC8.cur ≤ sC8.len ∧
    (∀ i, i + 1 < sC8.partialHits.length →
      (sC8.partialHits.getD i default).bwoff + (sC8.partialHits.getD i default).len ≤
        (sC8.partialHits.getD (i + 1) default).bwoff) ∧
    (∀ ph, sC8.partialHits.getLast? = some ph →
      ph.bwoff + ph.len ≤ sC8.cur ∧ sC8.cur ≤ ph.bwoff + ph.len + 1) ∧
    (sC8.partialHits = [] → sC8.cur = 0)) := by
  have h1 : RBReach ebwtC8 (fun _ => 0) 2 rbC5 := RBReach.init true 20 (by decide)
  have h2 := RBReach.step rbC5 false false h1 (by decide) (by decide)
  have h3 := RBReach.step (nextBWTStep ebwtC8 (fun _ => 0) 2 rbC5 false false) false false h2
    (by decide) (by decide)
  exact ⟨h3, rbreach_tiling ebwtC8 (fun _ => 0) 2 sC8 h3⟩

/-! ### Claim C6: `searchScore` and `pickNextReadToSearch`
(hi_aligner.h lines 309-322, 2675-2701)

`int64_t` arithmetic is modelled exactly; the `1 << (a << 1)` term is a C
`int` shift, taken at its mathematical value `2 ^ (2a)` (the defined range
`2a < 31`).  The source asserts `curScore > int64_min` before comparing
(line 2690); the characterization below carries that as a hypothesis. -/

/-- `ReadBWTHit::searchScore` (lines 309-322). -/
def searchScore (h : ReadBWTHit) (minK : Nat) : Int :=
  let score : Int :=
    h.partialHits.foldl (fun acc ph => acc + (ph.len : Int) * (ph.len : Int)) 0
  let actualPartialSearch := h.numPartialSearch - h.numUniqueSearch
  let score := score - (actualPartialSearch : Int) * ((minK : Int) * (minK : Int))
  score - 2 ^ (2 * actualPartialSearch)

/-- The effective score of a state in the scheduler (lines 2686-2689):
`searchScore`, replaced by `int64_max` when the cursor is at 0. -/
def effScore (minK : Nat) (h : ReadBWTHit) : Int :=
  if h.cur = 0 then maxI64 else searchScore h minK

/-- One candidate of the scheduler scan (lines 2682-2696): skip a strand
disabled by `_nofw`/`_norc` or an exhausted state, otherwise keep the
candidate iff it strictly improves the running maximum.  The accumulator is
`(rdi, fw, picked, maxScore)`. -/
def pickStep (nofw norc : Nat → Bool) (hits : Nat → Nat → ReadBWTHit) (minK : Nat)
    (acc : Nat × Bool × Bool × Int) (p : Nat × Nat) : Nat × Bool × Bool × Int :=
  if p.2 = 0 ∧ nofw p.1 = true then acc
  else if p.2 = 1 ∧ norc p.1 = true then acc
  else if (hits p.1 p.2).done = true then acc
  else if acc.2.2.2 < effScore minK (hits p.1 p.2) then
    (p.1, decide (p.2 = 0), true, effScore minK (hits p.1 p.2))
  else acc

/-- `HI_Aligner::pickNextReadToSearch` (lines 2675-2701): the nested scan
over reads (`_paired ? 2 : 1`) and strands, returning `(rdi, fw, picked)`. -/
def pickNextReadToSearch (paired : Bool) (nofw norc : Nat → Bool)
    (hits : Nat → Nat → ReadBWTHit) (minK : Nat) : Nat × Bool × Bool :=
  let r :=
    (List.range (if paired then 2 else 1)).foldl
      (fun acc rdi2 =>
        (List.range 2).foldl
          (fun acc fwi => pickStep nofw norc hits minK acc (rdi2, fwi)) acc)
      (0, true, false, minI64)
  (r.1, r.2.1, r.2.2.1)

/-- The scan order of the scheduler: read-major, forward strand first. -/
def scanPairs (paired : Bool) : List (Nat × Nat) :=
  if paired then [(0, 0), (0, 1), (1, 0), (1, 1)] else [(0, 0), (0, 1)]

/-- A scanned state the scheduler may select: its strand is enabled and it
is not done. -/
def eligible (nofw norc : Nat → Bool) (hits : Nat → Nat → ReadBWTHit)
    (p : Nat × Nat) : Prop :=
  ¬(p.2 = 0 ∧ nofw p.1 = true) ∧ ¬(p.2 = 1 ∧ norc p.1 = true) ∧
  (hits p.1 p.2).done = false

/-- Characterization of the scheduler fold over an arbitrary scan list:
either nothing eligible was seen and the accumulator is untouched, or the
accumulator holds the first eligible candidate attaining the maximal
effective score. -/
theorem pickFold_spec (nofw norc : Nat → Bool) (hits : Nat → Nat → ReadBWTHit)
    (minK : Nat)
    (hwf : ∀ p : Nat × Nat, minI64 < effScore minK (hits p.1 p.2)) (L : List (Nat × Nat)) :
    ((L.foldl (pickStep nofw norc hits minK) (0, true, false, minI64)).2.2.1 = false →
      (L.foldl (pickStep nofw norc hits minK) (0, true, false, minI64)) =
        (0, true, false, minI64) ∧
      ∀ q ∈ L, ¬eligible nofw norc hits q) ∧
    ((L.foldl (pickStep nofw norc hits minK) (0, true, false, minI64)).2.2.1 = true →
      ∃ fwi pre post,
        L = pre ++ ((L.foldl (pickStep nofw norc hits minK) (0, true, false, minI64)).1,
          fwi) :: post ∧
        (L.foldl (pickStep nofw norc hits minK) (0, true, false, minI64)).2.1 =
          decide (fwi = 0) ∧
        (L.foldl (pickStep nofw norc hits minK) (0, true, false, minI64)).2.2.2 =
          effScore minK
            (hits (L.foldl (pickStep nofw norc hits minK) (0, true, false, minI64)).1 fwi) ∧
        eligible nofw norc hits
          ((L.foldl (pickStep nofw norc hits minK) (0, true, false, minI64)).1, fwi) ∧
        (∀ q ∈ pre, eligible nofw norc hits q →
          effScore minK (hits q.1 q.2) <
            (L.foldl (pickStep nofw norc hits minK) (0, true, false, minI64)).2.2.2) ∧
        (∀ q ∈ post, eligible nofw norc hits q →
          effScore minK (hits q.1 q.2) ≤
            (L.foldl (pickStep nofw norc hits minK) (0, true, false, minI64)).2.2.2)) := by
  induction L using List.reverseRecOn with
  | nil =>
    constructor
    · intro _
      exact ⟨rfl, by intro q hq; cases hq⟩
    · intro h
      cases h
  | append_singleton L' p ih =>
    rw [List.foldl_append]
    rcases hacc : L'.foldl (pickStep nofw norc hits minK) (0, true, false, minI64) with
      ⟨r1, r2, r3, r4⟩
    rw [hacc] at ih
    simp only [List.foldl_cons, List.foldl_nil]
    by_cases he : eligible nofw norc hits p
    · obtain ⟨he1, he2, he3⟩ := he
      have hstep : pickStep nofw norc hits minK (r1, r2, r3, r4) p =
          if r4 < effScore minK (hits p.1 p.2) then
            (p.1, decide (p.2 = 0), true, effScore minK (hits p.1 p.2))
          else (r1, r2, r3, r4) := by
        unfold pickStep
        rw [if_neg he1, if_neg he2, if_neg (by simp [he3])]
      rw [hstep]
      by_cases hcmp : r4 < effScore minK (hits p.1 p.2)
      · rw [if_pos hcmp]
        constructor
        · intro h
          cases h
        · intro _
          refine ⟨p.2, L', [], by simp, rfl, rfl, ?_, ?_, ?_⟩
          · exact ⟨he1, he2, he3⟩
          · intro q hq helq
            dsimp only
            rcases hr3 : r3 with _ | _
            · rw [hr3] at ih
              exact absurd helq ((ih.1 rfl).2 q hq)
            · rw [hr3] at ih
              obtain ⟨fwi, pre, post, hL, hfw, hsc, helc, hpre, hpost⟩ := ih.2 rfl
              dsimp only at hsc hpre hpost
              rw [hL] at hq
              rcases List.mem_append.mp hq with hq | hq
              · exact lt_trans (hpre q hq helq) (by omega)
              · rcases List.mem_cons.mp hq with hq | hq
                · subst hq
                  dsimp only at hsc ⊢
                  omega
                · exact lt_of_le_of_lt (hpost q hq helq) (by omega)
          · intro q hq
            cases hq
      · rw [if_neg hcmp]
        rcases hr3 : r3 with _ | _
        · rw [hr3] at ih
          obtain ⟨heq, _⟩ := ih.1 rfl
          have : r4 = minI64 := by
            have := congrArg (fun x => x.2.2.2) heq
            simpa using this
          subst this
          exact absurd (hwf p) (by omega)
        · rw [hr3] at ih
          constructor
          · intro h
            cases h
          · intro _
            obtain ⟨fwi, pre, post, hL, hfw, hsc, helc, hpre, hpost⟩ := ih.2 rfl
            dsimp only at hL hfw hsc helc hpre hpost ⊢
            refine ⟨fwi, pre, post ++ [p], by rw [hL]; simp, hfw, hsc, helc, hpre, ?_⟩
            intro q hq helq
            rcases List.mem_append.mp hq with hq | hq
            · exact hpost q hq helq
            · rcases List.mem_singleton.mp hq with rfl
              omega
    · have hstep : pickStep nofw norc hits minK (r1, r2, r3, r4) p = (r1, r2, r3, r4) := by
        unfold pickStep
        unfold eligible at he
        by_cases h1 : p.2 = 0 ∧ nofw p.1 = true
        · rw [if_pos h1]
        · rw [if_neg h1]
          by_cases h2 : p.2 = 1 ∧ norc p.1 = true
          · rw [if_pos h2]
          · rw [if_neg h2]
            have h3 : (hits p.1 p.2).done = true := by
              by_cases h3 : (hits p.1 p.2).done = true
              · exact h3
              · exact absurd ⟨h1, h2, by simpa using h3⟩ he
            rw [if_pos h3]
      rw [hstep]
      constructor
      · intro h
        obtain ⟨heq, hall⟩ := ih.1 h
        refine ⟨heq, ?_⟩
        intro q hq
        rcases List.mem_append.mp hq with hq | hq
        · exact hall q hq
        · rcases List.mem_singleton.mp hq with rfl
          exact he
      · intro h
        obtain ⟨fwi, pre, post, hL, hfw, hsc, helc, hpre, hpost⟩ := ih.2 h
        dsimp only at hL hfw hsc helc hpre hpost ⊢
        refine ⟨fwi, pre, post ++ [p], by rw [hL]; simp, hfw, hsc, helc, hpre, ?_⟩
        intro q hq helq
        rcases List.mem_append.mp hq with hq | hq
        · exact hpost q hq helq
        · rcases List.mem_singleton.mp hq with rfl
          exact absurd helq he

/-- **C6 (amended).** `searchScore` is `Σ len_i² − a·minK² − 2^(2a)` with
`a = numPartialSearch − numUniqueSearch`; and `pickNextReadToSearch`, over
the read-major forward-first scan order, skips strands disabled by
`_nofw`/`_norc` and exhausted states, treats a cursor at 0 as `int64_max`
(`effScore`), and returns the earliest scanned eligible state attaining the
maximal effective score — ties are broken by scan order, and a disabled
strand is never selected however high its score. -/
theorem searchScore_and_picker :
    (∀ (h : ReadBWTHit) (minK : Nat),
      searchScore h minK =
        (h.partialHits.map (fun ph => (ph.len : Int) * (ph.len : Int))).sum -
        ((h.numPartialSearch - h.numUniqueSearch : Nat) : Int) *
          ((minK : Int) * (minK : Int)) -
        2 ^ (2 * (h.numPartialSearch - h.numUniqueSearch))) ∧
    (∀ (paired : Bool) (nofw norc : Nat → Bool) (hits : Nat → Nat → ReadBWTHit)
        (minK : Nat),
      (∀ p : Nat × Nat, minI64 < effScore minK (hits p.1 p.2)) →
      ((pickNextReadToSearch paired nofw norc hits minK).2.2 = false →
        ∀ q ∈ scanPairs paired, ¬eligible nofw norc hits q) ∧
      ((pickNextReadToSearch paired nofw norc hits minK).2.2 = true →
        ∃ fwi pre post,
          scanPairs paired =
            pre ++ ((pickNextReadToSearch paired nofw norc hits minK).1, fwi) :: post ∧
          (pickNextReadToSearch paired nofw norc hits minK).2.1 = decide (fwi = 0) ∧
          eligible nofw norc hits
            ((pickNextReadToSearch paired nofw norc hits minK).1, fwi) ∧
          (∀ q ∈ pre, eligible nofw norc hits q →
            effScore minK (hits q.1 q.2) <
              effScore minK (hits (pickNextReadToSearch paired nofw norc hits minK).1 fwi)) ∧
          (∀ q ∈ post, eligible nofw norc hits q →
            effScore minK (hits q.1 q.2) ≤
              effScore minK
                (hits (pickNextReadToSearch paired nofw norc hits minK).1 fwi)))) := by
  constructor
  · intro h minK
    simp only [searchScore]
    rw [List.sum_eq_foldl, List.foldl_map]
  · intro paired nofw norc hits minK hwf
    have heq : pickNextReadToSearch paired nofw norc hits minK =
        (((scanPairs paired).foldl (pickStep nofw norc hits minK)
            (0, true, false, minI64)).1,
         ((scanPairs paired).foldl (pickStep nofw norc hits minK)
            (0, true, false, minI64)).2.1,
         ((scanPairs paired).foldl (pickStep nofw norc hits minK)
            (0, true, false, minI64)).2.2.1) := by
      unfold pickNextReadToSearch scanPairs
      cases paired <;> rfl
    have hspec := pickFold_spec nofw norc hits minK hwf (scanPairs paired)
    rw [heq]
    dsimp only
    constructor
    · intro h
      exact (hspec.1 h).2
    · intro h
      obtain ⟨fwi, pre, post, hL, hfw, hsc, helc, hpre, hpost⟩ := hspec.2 h
      refine ⟨fwi, pre, post, hL, hfw, helc, ?_, ?_⟩
      · intro q hq hel
        have := hpre q hq hel
        rw [hsc] at this
        exact this
      · intro q hq hel
        have := hpost q hq hel
        rw [hsc] at this
        exact this

/-- A searched, not-done state: one 8-base partial hit, cursor at 8, one
partial search. -/
def rbSearched : ReadBWTHit :=
  { fw := false, len := 20, cur := 8, done := false, numPartialSearch := 1,
    numUniqueSearch := 0,
    partialHits := [{ top := 0, bot := 2, fw := false, bwoff := 0, len := 8,
                      hitType := HitType.candidate }] }

/-- Forward state unsearched (cursor 0), reverse state searched. -/
def hitsC6 : Nat → Nat → ReadBWTHit := fun _ fwi => if fwi = 0 then rbC5 else rbSearched

/-- The scheduler does not select the not-done state with the highest
score when its strand is disabled: with `_nofw` set, the unsearched forward
state (effective score `int64_max`) is skipped and the far lower-scoring
reverse state is picked. -/
theorem picker_skips_nofw_counterexample :
    (hitsC6 0 0).done = false ∧
    effScore 22 (hitsC6 0 1) < effScore 22 (hitsC6 0 0) ∧
    pickNextReadToSearch false (fun _ => true) (fun _ => false) hitsC6 22 =
      (0, false, true) := by
  refine ⟨by decide, by decide, by decide⟩

/-- All four states identical and eligible. -/
def hitsC6w : Nat → Nat → ReadBWTHit := fun _ _ => rbSearched

/-- Witness for C6: the score formula at a concrete state, and the picker
characterization at a concrete eligible instance. -/
theorem searchScore_and_picker_witness :
    (searchScore rbSearched 22 =
      (rbSearched.partialHits.map (fun ph => (ph.len : Int) * (ph.len : Int))).sum -
      ((rbSearched.numPartialSearch - rbSearched.numUniqueSearch : Nat) : Int) *
        ((22 : Int) * (22 : Int)) -
      2 ^ (2 * (rbSearched.numPartialSearch - rbSearched.numUniqueSearch))) ∧
    (((pickNextReadToSearch false (fun _ => false) (fun _ => false) hitsC6w 22).2.2 =
        false →
      ∀ q ∈ scanPairs false, ¬eligible (fun _ => false) (fun _ => false) hitsC6w q) ∧
     ((pickNextReadToSearch false (fun _ => false) (fun _ => false) hitsC6w 22).2.2 =
        true →
      ∃ fwi pre post,
        scanPairs false =
          pre ++ ((pickNextReadToSearch false (fun _ => false) (fun _ => false)
            hitsC6w 22).1, fwi) :: post ∧
        (pickNextReadToSearch false (fun _ => false) (fun _ => false) hitsC6w 22).2.1 =
          decide (fwi = 0) ∧
        eligible (fun _ => false) (fun _ => false) hitsC6w
          ((pickNextReadToSearch false (fun _ => false) (fun _ => false) hitsC6w 22).1,
            fwi) ∧
        (∀ q ∈ pre, eligible (fun _ => false) (fun _ => false) hitsC6w q →
          effScore 22 (hitsC6w q.1 q.2) <
            effScore 22 (hitsC6w (pickNextReadToSearch false (fun _ => false)
              (fun _ => false) hitsC6w 22).1 fwi)) ∧
        (∀ q ∈ post, eligible (fun _ => false) (fun _ => false) hitsC6w q →
          effScore 22 (hitsC6w q.1 q.2) ≤
            effScore 22 (hitsC6w (pickNextReadToSearch false (fun _ => false)
              (fun _ => false) hitsC6w 22).1 fwi)))) :=
  ⟨searchScore_and_picker.1 rbSearched 22,
   searchScore_and_picker.2 false (fun _ => false) (fun _ => false) hitsC6w 22
     (fun _ => show minI64 < effScore 22 rbSearched by decide)⟩

/-! ### Claim C9: `pairReads` (hi_aligner.h lines 3478-3535)

An `AlnRes` is modelled by the fields `pairReads` reads: reference id and
orientation (shared by `refcoord()` and `refcoord_right()`, per the asserts
at lines 3507/3510), the two genomic endpoints, and the alignment score.
`sink.state().doneConcordant()` and `sink.bestPair()` are external calls
whose value may change as pairs are reported; they are modelled as
functions of the number of concordant pairs accumulated so far.
`sink.report` itself is the observable event, recorded by the appended
`(i, j)` entry of `_concordantPairs`. -/

structure AlnRes where
  refId : Nat
  orient : Bool
  leftOff : Int
  rightOff : Int
  score : Int
deriving DecidableEq, Repr

instance : Inhabited AlnRes :=
  ⟨{ refId := 0, orient := true, leftOff := 0, rightOff := 0, score := 0 }⟩

/-- The per-pair `continue` chain of `pairReads` (lines 3511-3523): same
reference; orientation against the `gMate1fw`/`gMate2fw` layout, with the
coordinates swapped when mate 1 is not in layout-forward orientation; then
the endpoint-order and intron-distance checks on the (possibly swapped)
coordinates. -/
def pairCheck (gMate1fw gMate2fw : Bool) (maxIntronLen : Nat) (r1 r2 : AlnRes) : Bool :=
  if r1.refId ≠ r2.refId then false
  else if r1.orient = gMate1fw then
    if r2.orient ≠ gMate2fw then false
    else
      decide (r1.leftOff ≤ r2.leftOff) && decide (r1.rightOff ≤ r2.rightOff) &&
      !decide (r1.rightOff + (maxIntronLen : Int) < r2.leftOff)
  else
    if r2.orient = gMate2fw then false
    else
      decide (r2.leftOff ≤ r1.leftOff) && decide (r2.rightOff ≤ r1.rightOff) &&
      !decide (r2.rightOff + (maxIntronLen : Int) < r1.leftOff)

/-- One inner-loop iteration of `pairReads` (lines 3498-3531): skip pairs
already recorded, stop when concordant alignment is done, and report when
the checks pass and the pair score reaches `sink.bestPair()` (or secondary
alignments are allowed).  The state is `(concordantPairs, stopped)`. -/
def pairInner (gMate1fw gMate2fw : Bool) (maxIntronLen : Nat) (secondary : Bool)
    (bestPair : Nat → Int) (doneC : Nat → Bool) (rs1 rs2 : List AlnRes) (i : Nat)
    (st : List (Nat × Nat) × Bool) (j : Nat) : List (Nat × Nat) × Bool :=
  if st.2 = true then st
  else if (i, j) ∈ st.1 then st
  else if doneC st.1.length = true then (st.1, true)
  else
    let r1 := rs1.getD i default
    let r2 := rs2.getD j default
    if pairCheck gMate1fw gMate2fw maxIntronLen r1 r2 = true then
      if bestPair st.1.length ≤ r1.score + r2.score ∨ secondary = true then
        (st.1 ++ [(i, j)], st.2)
      else st
    else st

/-- `HI_Aligner::pairReads` (lines 3478-3535): the nested scan over both
result lists, returning the final `_concordantPairs`. -/
def pairReads (gMate1fw gMate2fw : Bool) (maxIntronLen : Nat) (secondary : Bool)
    (bestPair : Nat → Int) (doneC : Nat → Bool) (rs1 rs2 : List AlnRes)
    (pairs0 : List (Nat × Nat)) : List (Nat × Nat) :=
  ((List.range rs1.length).foldl
    (fun st i =>
      (List.range rs2.length).foldl
        (pairInner gMate1fw gMate2fw maxIntronLen secondary bestPair doneC rs1 rs2 i) st)
    (pairs0, false)).1

/-- Unfolding of the `pairCheck` condition chain. -/
theorem pairCheck_iff (gMate1fw gMate2fw : Bool) (maxIntronLen : Nat) (r1 r2 : AlnRes) :
    pairCheck gMate1fw gMate2fw maxIntronLen r1 r2 = true ↔
      r1.refId = r2.refId ∧
      ((r1.orient = gMate1fw ∧ r2.orient = gMate2fw ∧
        r1.leftOff ≤ r2.leftOff ∧ r1.rightOff ≤ r2.rightOff ∧
        r2.leftOff ≤ r1.rightOff + (maxIntronLen : Int)) ∨
       (¬r1.orient = gMate1fw ∧ ¬r2.orient = gMate2fw ∧
        r2.leftOff ≤ r1.leftOff ∧ r2.rightOff ≤ r1.rightOff ∧
        r1.leftOff ≤ r2.rightOff + (maxIntronLen : Int))) := by
  unfold pairCheck
  split_ifs with h1 h2 h3 h4 <;> simp_all <;> omega

/-- A pair added by one inner step passed `pairCheck` at its own indices. -/
theorem pairInner_inv (gMate1fw gMate2fw : Bool) (maxIntronLen : Nat) (secondary : Bool)
    (bestPair : Nat → Int) (doneC : Nat → Bool) (rs1 rs2 : List AlnRes) (i : Nat)
    (st : List (Nat × Nat) × Bool) (j : Nat) :
    ∀ p ∈ (pairInner gMate1fw gMate2fw maxIntronLen secondary bestPair doneC
        rs1 rs2 i st j).1,
      p ∈ st.1 ∨ (p = (i, j) ∧
        pairCheck gMate1fw gMate2fw maxIntronLen (rs1.getD i default)
          (rs2.getD j default) = true) := by
  intro p hp
  unfold pairInner at hp
  dsimp only at hp
  split_ifs at hp with h1 h2 h3 h4 h5
  · exact Or.inl hp
  · exact Or.inl hp
  · exact Or.inl hp
  · rcases List.mem_append.mp hp with hp | hp
    · exact Or.inl hp
    · rcases List.mem_singleton.mp hp with rfl
      exact Or.inr ⟨rfl, h4⟩
  · exact Or.inl hp
  · exact Or.inl hp

/-- Same invariant for the inner fold across all `j`. -/
theorem pairFold_inner_inv (gMate1fw gMate2fw : Bool) (maxIntronLen : Nat)
    (secondary : Bool) (bestPair : Nat → Int) (doneC : Nat → Bool)
    (rs1 rs2 : List AlnRes) (i : Nat) :
    ∀ (js : List Nat) (st : List (Nat × Nat) × Bool),
      ∀ p ∈ (js.foldl (pairInner gMate1fw gMate2fw maxIntronLen secondary bestPair doneC
          rs1 rs2 i) st).1,
        p ∈ st.1 ∨ ∃ j, p = (i, j) ∧
          pairCheck gMate1fw gMate2fw maxIntronLen (rs1.getD i default)
            (rs2.getD j default) = true := by
  intro js
  induction js with
  | nil => intro st p hp; exact Or.inl hp
  | cons j js ih =>
    intro st p hp
    rw [List.foldl_cons] at hp
    rcases ih _ p hp with hp2 | hp2
    · rcases pairInner_inv gMate1fw gMate2fw maxIntronLen secondary bestPair doneC
        rs1 rs2 i st j p hp2 with hp3 | hp3
      · exact Or.inl hp3
      · exact Or.inr ⟨j, hp3⟩
    · exact Or.inr hp2

/-- **C9 (amended).** `pairReads` reports a concordant pair `(i, j)` only if
the two single-end alignments are on the same reference and, after
orientation normalization against the library layout, the layout-forward
mate's endpoints are at or before the other mate's and the gap is within
`maxIntronLen`: when mate 1 is in layout-forward orientation
(`orient = gMate1fw`, with mate 2 then required to be layout-forward as
well), read-1's left and right endpoints are at or before read-2's and
read-2's left end is within `maxIntronLen` of read-1's right end; when both
are layout-reversed, the roles are swapped (lines 3515-3520). -/
theorem pairReads_only_if (gMate1fw gMate2fw : Bool) (maxIntronLen : Nat)
    (secondary : Bool) (bestPair : Nat → Int) (doneC : Nat → Bool)
    (rs1 rs2 : List AlnRes) (pairs0 : List (Nat × Nat)) (i j : Nat)
    (hmem : (i, j) ∈ pairReads gMate1fw gMate2fw maxIntronLen secondary bestPair doneC
      rs1 rs2 pairs0)
    (hnew : (i, j) ∉ pairs0) :
    (rs1.getD i default).refId = (rs2.getD j default).refId ∧
    (((rs1.getD i default).orient = gMate1fw ∧
      (rs2.getD j default).orient = gMate2fw ∧
      (rs1.getD i default).leftOff ≤ (rs2.getD j default).leftOff ∧
      (rs1.getD i default).rightOff ≤ (rs2.getD j default).rightOff ∧
      (rs2.getD j default).leftOff ≤ (rs1.getD i default).rightOff +
        (maxIntronLen : Int)) ∨
     (¬(rs1.getD i default).orient = gMate1fw ∧
      ¬(rs2.getD j default).orient = gMate2fw ∧
      (rs2.getD j default).leftOff ≤ (rs1.getD i default).leftOff ∧
      (rs2.getD j default).rightOff ≤ (rs1.getD i default).rightOff ∧
      (rs1.getD i default).leftOff ≤ (rs2.getD j default).rightOff +
        (maxIntronLen : Int))) := by
  unfold pairReads at hmem
  have houter : ∀ (is : List Nat) (st : List (Nat × Nat) × Bool),
      ∀ p ∈ (is.foldl (fun st i2 =>
          (List.range rs2.length).foldl
            (pairInner gMate1fw gMate2fw maxIntronLen secondary bestPair doneC
              rs1 rs2 i2) st) st).1,
        p ∈ st.1 ∨ ∃ i2 j2, p = (i2, j2) ∧
          pairCheck gMate1fw gMate2fw maxIntronLen (rs1.getD i2 default)
            (rs2.getD j2 default) = true := by
    intro is
    induction is with
    | nil => intro st p hp; exact Or.inl hp
    | cons i2 is ih =>
      intro st p hp
      rw [List.foldl_cons] at hp
      rcases ih _ p hp with hp2 | hp2
      · rcases pairFold_inner_inv gMate1fw gMate2fw maxIntronLen secondary bestPair
          doneC rs1 rs2 i2 (List.range rs2.length) st p hp2 with hp3 | hp3
        · exact Or.inl hp3
        · obtain ⟨j2, hj⟩ := hp3
          exact Or.inr ⟨i2, j2, hj⟩
      · exact Or.inr hp2
  rcases houter (List.range rs1.length) (pairs0, false) (i, j) hmem with hp | hp
  · exact absurd hp hnew
  · obtain ⟨i2, j2, heq, hchk⟩ := hp
    injection heq with h1 h2
    subst h1
    subst h2
    exact (pairCheck_iff gMate1fw gMate2fw maxIntronLen _ _).mp hchk

/-- Mate-1 alignment on the reverse strand, downstream of mate 2. -/
def r1C9 : AlnRes :=
  { refId := 0, orient := false, leftOff := 500, rightOff := 600, score := 0 }

/-- Mate-2 alignment on the reverse strand, upstream of mate 1. -/
def r2C9 : AlnRes :=
  { refId := 0, orient := false, leftOff := 100, rightOff := 200, score := 0 }

/-- A concordant pair is reported although read-1's endpoints are strictly
after read-2's: with both mates layout-reversed, lines 3518-3520 swap the
coordinates before the order checks, so the requirement is on read-2's
endpoints preceding read-1's, not the other way around. -/
theorem pairReads_reversed_pair_counterexample :
    pairReads true true 1000 false (fun _ => -100) (fun _ => false)
      [r1C9] [r2C9] [] = [(0, 0)] ∧
    r2C9.leftOff < r1C9.leftOff ∧ r2C9.rightOff < r1C9.rightOff := by
  refine ⟨by decide, by decide, by decide⟩

/-- Mate-1 alignment in layout-forward orientation, upstream of mate 2. -/
def r1C9w : AlnRes :=
  { refId := 3, orient := true, leftOff := 100, rightOff := 200, score := -10 }

/-- Mate-2 alignment in layout-forward orientation, downstream of mate 1. -/
def r2C9w : AlnRes :=
  { refId := 3, orient := true, leftOff := 700, rightOff := 800, score := -20 }

/-- Witness for C9: a concrete forward-orientation pair is reported, and the
necessary conditions hold for it. -/
theorem pairReads_only_if_witness :
    (0, 0) ∈ pairReads true true 1000 false (fun _ => -100) (fun _ => false)
      [r1C9w] [r2C9w] [] ∧
    (0, 0) ∉ ([] : List (Nat × Nat)) ∧
    (([r1C9w].getD 0 default).refId = ([r2C9w].getD 0 default).refId ∧
    ((([r1C9w].getD 0 default).orient = true ∧
      ([r2C9w].getD 0 default).orient = true ∧
      ([r1C9w].getD 0 default).leftOff ≤ ([r2C9w].getD 0 default).leftOff ∧
      ([r1C9w].getD 0 default).rightOff ≤ ([r2C9w].getD 0 default).rightOff ∧
      ([r2C9w].getD 0 default).leftOff ≤ ([r1C9w].getD 0 default).rightOff +
        ((1000 : Nat) : Int)) ∨
     (¬([r1C9w].getD 0 default).orient = true ∧
      ¬([r2C9w].getD 0 default).orient = true ∧
      ([r2C9w].getD 0 default).leftOff ≤ ([r1C9w].getD 0 default).leftOff ∧
      ([r2C9w].getD 0 default).rightOff ≤ ([r1C9w].getD 0 default).rightOff ∧
      ([r1C9w].getD 0 default).leftOff ≤ ([r2C9w].getD 0 default).rightOff +
        ((1000 : Nat) : Int)))) :=
  ⟨by decide, by decide,
   pairReads_only_if true true 1000 false (fun _ => -100) (fun _ => false)
     [r1C9w] [r2C9w] [] 0 0 (by decide) (by decide)⟩
